import Mathlib

set_option autoImplicit false

/-!
Verification of the AWS AI assistant retrieval-augmented QA pipeline
(`src/python/doc_ingestor.py` and `src/python/query_processor.py`)
against its natural-language specification.

The two Lambda modules are shallowly embedded: pure computations
(chunking, response parsing, request building, HTTP response shaping)
become Lean functions over a JSON value type; the remote collaborators
(Bedrock invoke_model, OpenSearch, S3) are passed in as oracles returning
either a parsed payload or a Python-level exception, and the handlers
thread an explicit effect trace.
-/

/-- JSON values as produced by `json.loads`.  Numbers are modelled as
integers: none of the verified properties depends on float arithmetic or
formatting, only on the structural shape of payloads.  Object fields keep
insertion order, as Python dicts do; key lookup returns the first match
(Python dicts cannot hold duplicate keys, so on faithful payloads the two
agree). -/
inductive Json where
  | null
  | bool (b : Bool)
  | num (n : Int)
  | str (s : String)
  | arr (xs : List Json)
  | obj (fields : List (String × Json))
  deriving Repr

mutual

/-- Structural equality of JSON values, modelling Python `==` on the
results of `json.loads`. -/
def jsonBeq : Json → Json → Bool
  | .null, .null => true
  | .bool a, .bool b => a == b
  | .num a, .num b => a == b
  | .str a, .str b => a == b
  | .arr xs, .arr ys => jsonBeqList xs ys
  | .obj fs, .obj gs => jsonBeqFields fs gs
  | _, _ => false

/-- Elementwise `jsonBeq` on lists. -/
def jsonBeqList : List Json → List Json → Bool
  | [], [] => true
  | x :: xs, y :: ys => jsonBeq x y && jsonBeqList xs ys
  | _, _ => false

/-- Elementwise `jsonBeq` on association lists. -/
def jsonBeqFields : List (String × Json) → List (String × Json) → Bool
  | [], [] => true
  | (k, v) :: xs, (l, w) :: ys => k == l && jsonBeq v w && jsonBeqFields xs ys
  | _, _ => false

end

/-- Python-level exception kinds that the embedded code can raise. -/
inductive PyErr where
  | keyError (k : String)
  | typeError
  | attributeError
  | valueError (msg : String)
  | runtimeError (msg : String)
  | clientError (info : String)
  deriving DecidableEq, Repr

/-- One hexadecimal digit, lowercase, as emitted by Python string escapes. -/
def hexDigit (n : Nat) : Char :=
  if n < 10 then Char.ofNat (48 + n) else Char.ofNat (87 + n)

/-- Four-digit lowercase hexadecimal rendering used in JSON escapes. -/
def hex4 (n : Nat) : String :=
  String.mk [hexDigit (n / 4096 % 16), hexDigit (n / 256 % 16), hexDigit (n / 16 % 16),
    hexDigit (n % 16)]

/-- Escape of one character inside a JSON string literal, following
`json.dumps` with its default `ensure_ascii=True`: printable ASCII other
than quote and backslash passes through, the common control characters use
their two-character escapes, and everything else becomes a u-escape
(a surrogate pair beyond the basic plane). -/
def jsonEscapeChar (c : Char) : String :=
  if c = Char.ofNat 34 then String.mk [Char.ofNat 92, Char.ofNat 34]
  else if c = Char.ofNat 92 then String.mk [Char.ofNat 92, Char.ofNat 92]
  else if c = Char.ofNat 10 then String.mk [Char.ofNat 92, Char.ofNat 110]
  else if c = Char.ofNat 13 then String.mk [Char.ofNat 92, Char.ofNat 114]
  else if c = Char.ofNat 9 then String.mk [Char.ofNat 92, Char.ofNat 116]
  else if c = Char.ofNat 8 then String.mk [Char.ofNat 92, Char.ofNat 98]
  else if c = Char.ofNat 12 then String.mk [Char.ofNat 92, Char.ofNat 102]
  else if c.toNat < 32 ∨ 126 < c.toNat then
    if c.toNat < 65536 then "\\u" ++ hex4 c.toNat
    else
      let v := c.toNat - 65536
      "\\u" ++ hex4 (55296 + v / 1024) ++ "\\u" ++ hex4 (56320 + v % 1024)
  else String.mk [c]

/-- Escape of a whole string body for `json.dumps`. -/
def jsonEscape (s : String) : String :=
  String.join (s.data.map jsonEscapeChar)

/-- Quoted, escaped JSON string literal. -/
def jsonQuote (s : String) : String :=
  String.mk [Char.ofNat 34] ++ jsonEscape s ++ String.mk [Char.ofNat 34]

/-- Comma-plus-space separated concatenation, the default item separator
of `json.dumps`. -/
def sepJoin : List String → String
  | [] => ""
  | [x] => x
  | x :: y :: rest => x ++ ", " ++ sepJoin (y :: rest)

mutual

/-- Model of `json.dumps` with default options: separators are a comma
plus space and a colon plus space, object fields keep insertion order,
strings are escaped as in `jsonEscape`.  Numbers are integers in this
model and render in decimal exactly as Python ints do. -/
def jsonDumps : Json → String
  | .null => "null"
  | .bool true => "true"
  | .bool false => "false"
  | .num n => toString n
  | .str s => jsonQuote s
  | .arr xs => "[" ++ jsonDumpsList xs ++ "]"
  | .obj fs => String.mk [Char.ofNat 123] ++ jsonDumpsFields fs ++ String.mk [Char.ofNat 125]

/-- Comma-separated rendering of array elements. -/
def jsonDumpsList : List Json → String
  | [] => ""
  | [x] => jsonDumps x
  | x :: y :: rest => jsonDumps x ++ ", " ++ jsonDumpsList (y :: rest)

/-- Comma-separated rendering of object fields. -/
def jsonDumpsFields : List (String × Json) → String
  | [] => ""
  | [(k, v)] => jsonQuote k ++ ": " ++ jsonDumps v
  | (k, v) :: f :: rest => jsonQuote k ++ ": " ++ jsonDumps v ++ ", " ++ jsonDumpsFields (f :: rest)

end

/-- Model of Python string slicing `s[:n]` (slicing counts code points,
as `List Char` does). -/
def strTake (s : String) (n : Nat) : String := String.mk (s.data.take n)

/-- First-match lookup in an object field list (Python dict indexing). -/
def lookupField : List (String × Json) → String → Option Json
  | [], _ => none
  | (k, v) :: rest, key => if k = key then some v else lookupField rest key

/-- Python truthiness of a JSON value: `None`, `False`, zero, and empty
containers and strings are falsy. -/
def pyTruthy : Json → Bool
  | .null => false
  | .bool b => b
  | .num n => n != 0
  | .str s => !s.isEmpty
  | .arr xs => !xs.isEmpty
  | .obj fs => !fs.isEmpty

/-- Substring containment, modelling Python `pat in s` on strings. -/
def containsSubstr (s pat : String) : Bool :=
  s.data.tails.any (fun t => pat.data.isPrefixOf t)

/-- Python subscript `j[k]` with a string key: field access on a dict,
`KeyError` when the key is absent, `TypeError` on any other receiver. -/
def getItem (j : Json) (k : String) : Except PyErr Json :=
  match j with
  | .obj fs =>
    match lookupField fs k with
    | some v => .ok v
    | none => .error (.keyError k)
  | _ => .error .typeError

/-- Python `j.get(k, dflt)`: only dicts have `.get`; any other receiver
raises `AttributeError`. -/
def dictGet (j : Json) (k : String) (dflt : Json) : Except PyErr Json :=
  match j with
  | .obj fs => .ok ((lookupField fs k).getD dflt)
  | _ => .error .attributeError

/-- Python membership test `k in j` for a string key: key test on dicts,
element test on lists, substring test on strings, `TypeError` otherwise. -/
def inCheck (j : Json) (k : String) : Except PyErr Bool :=
  match j with
  | .obj fs => .ok (fs.any (fun kv => kv.1 == k))
  | .arr xs => .ok (xs.any (fun v => jsonBeq v (Json.str k)))
  | .str s => .ok (containsSubstr s k)
  | _ => .error .typeError

/-- Insert-or-overwrite of one field, keeping the position of an existing
key, as `dict.update` does for a single entry. -/
def dictUpsert (fs : List (String × Json)) (k : String) (v : Json) : List (String × Json) :=
  if fs.any (fun kv => kv.1 == k) then
    fs.map (fun kv => if kv.1 == k then (kv.1, v) else kv)
  else fs ++ [(k, v)]

/-- Model of the dict literal `\x7b**a, **b\x7d`: fields of `b` override or
extend those of `a`. -/
def dictMerge (a b : List (String × Json)) : List (String × Json) :=
  b.foldl (fun acc kv => dictUpsert acc kv.1 kv.2) a

/-- Model of Python `str()` as used in f-string interpolation of snippet
texts: the identity on strings, the Python literals for scalars.  In every
reachable payload the interpolated value is a string; for containers this
model reuses the JSON rendering, which differs from CPython only in quote
style, and no verified property depends on that case. -/
def pyStr (j : Json) : String :=
  match j with
  | .str s => s
  | .null => "None"
  | .bool true => "True"
  | .bool false => "False"
  | .num n => toString n
  | .arr xs => jsonDumps (.arr xs)
  | .obj fs => jsonDumps (.obj fs)

/-!
Model of `textwrap.wrap(text, max_len)` with CPython's default options,
the whole of `chunk_text` in `doc_ingestor.py`.  The model follows
CPython's `_munge_whitespace` (tab expansion then whitespace
replacement), `_split`, and `_wrap_chunks` step by step.  Scope notes:
the six-character class `'\t\n\x0b\x0c\r '` that textwrap treats as
whitespace is used both for splitting and for the `strip()` emptiness
tests, which coincides with CPython on text without exotic Unicode
whitespace; and `_split` is modelled as the alternation of maximal
whitespace and non-whitespace runs, which coincides with CPython's
`wordsep_re` on text containing no hyphen (CPython additionally
subdivides hyphenated words; theorems about word reconstruction
therefore assume hyphen-free input).  `break_long_words=True` and
`break_on_hyphens=True` (the `rfind` inside `_handle_long_word`) are
modelled in full.
-/

/-- The whitespace characters of `string.whitespace` that
`textwrap` recognizes. -/
def pyWsChar (c : Char) : Bool :=
  c = ' ' || c = Char.ofNat 9 || c = Char.ofNat 10 || c = Char.ofNat 11 ||
    c = Char.ofNat 12 || c = Char.ofNat 13

/-- Column-tracking body of `str.expandtabs(8)`: a tab becomes the spaces
needed to reach the next multiple of eight, and a newline or carriage
return resets the column. -/
def expandTabsGo : Nat → List Char → List Char
  | _, [] => []
  | col, c :: rest =>
    if c = Char.ofNat 9 then
      List.replicate (8 - col % 8) ' ' ++ expandTabsGo (col + (8 - col % 8)) rest
    else if c = Char.ofNat 10 ∨ c = Char.ofNat 13 then
      c :: expandTabsGo 0 rest
    else
      c :: expandTabsGo (col + 1) rest

/-- The `replace_whitespace` translation: each recognized whitespace
character becomes a space. -/
def replaceWsChar (c : Char) : Char := if pyWsChar c then ' ' else c

/-- `TextWrapper._munge_whitespace`: expand tabs, then replace each
whitespace character by a space. -/
def munge (cs : List Char) : List Char := (expandTabsGo 0 cs).map replaceWsChar

/-- Accumulator body of `splitRuns`: `cur` holds the current run
reversed, `curWs` its whitespace class. -/
def splitRunsGo (cur : List Char) (curWs : Bool) : List Char → List (List Char)
  | [] => [cur.reverse]
  | c :: rest =>
    if pyWsChar c = curWs then splitRunsGo (c :: cur) curWs rest
    else cur.reverse :: splitRunsGo [c] (pyWsChar c) rest

/-- `TextWrapper._split` restricted as described above: the alternating
maximal whitespace and non-whitespace runs of the munged text, in order
(empty pieces cannot arise, matching the `if c` filter in CPython). -/
def splitRuns : List Char → List (List Char)
  | [] => []
  | c :: rest => splitRunsGo [c] (pyWsChar c) rest

/-- A chunk whose characters are all whitespace, the `chunk.strip() == ''`
test of `_wrap_chunks` (true for the empty chunk, as in Python). -/
def isAllWs (chunk : List Char) : Bool := chunk.all pyWsChar

/-- Total character count of a chunk list. -/
def totalLen (cs : List (List Char)) : Nat := (cs.map List.length).sum

/-- Termination measure for the outer `_wrap_chunks` loop: each
iteration either consumes a chunk or strictly shortens one. -/
def chunksMeasure (cs : List (List Char)) : Nat := cs.length + totalLen cs

/-- The inner greedy loop of `_wrap_chunks`: move chunks onto the current
line while the running length stays within `width`.  Returns the line
chunks in order, the final `cur_len`, and the remaining chunks. -/
def greedyPop (width : Nat) : Nat → List (List Char) → List (List Char) × Nat × List (List Char)
  | curLen, [] => ([], curLen, [])
  | curLen, c :: rest =>
    if curLen + c.length ≤ width then
      let r := greedyPop width (curLen + c.length) rest
      (c :: r.1, r.2.1, r.2.2)
    else ([], curLen, c :: rest)

/-- `str.rfind(char, 0, stop)` returning an index only when found: the
largest position below `stop` holding a hyphen. -/
def rfindHyphen (chunk : List Char) (stop : Nat) : Option Nat :=
  (((chunk.take stop).enum.filter (fun p => p.2 == '-')).map (fun p => p.1)).getLast?

/-- The `break_on_hyphens` refinement inside `_handle_long_word`: break
after the last hyphen before `spaceLeft`, provided it is preceded by at
least one non-hyphen character. -/
def hyphenEnd (chunk : List Char) (spaceLeft : Nat) : Option Nat :=
  match rfindHyphen chunk spaceLeft with
  | some h =>
    if 0 < h then
      if (chunk.take h).any (fun x => !(x == '-')) then some h else none
    else none
  | none => none

/-- `TextWrapper._handle_long_word` with `break_long_words=True`: split
the oversized chunk at `space_left` (or just after a suitable hyphen),
returning the piece for the current line and the remainder.  The
`width < 1` special case of CPython is unreachable here because `wrap`
raises for non-positive widths and this model is only invoked with
`width ≥ 1`. -/
def handleLongWord (width curLen : Nat) (chunk : List Char) : List Char × List Char :=
  let spaceLeft := width - curLen
  let endPos :=
    if spaceLeft < chunk.length then
      match hyphenEnd chunk spaceLeft with
      | some h => h + 1
      | none => spaceLeft
    else spaceLeft
  (chunk.take endPos, chunk.drop endPos)

/-- The `drop_whitespace` deletion of a single trailing all-whitespace
chunk from the just-built line. -/
def dropLastWs (line : List (List Char)) : List (List Char) :=
  match line.getLast? with
  | some l => if isAllWs l then line.dropLast else line
  | none => line

/-- One iteration of the outer `_wrap_chunks` loop: optionally drop a
leading whitespace chunk (never on the first line), fill the line
greedily, break a long word if the next chunk exceeds the width, drop a
trailing whitespace chunk, and emit the line when its chunk list is
nonempty.  Returns the emitted line (if any) and the remaining chunks. -/
def wrapStep (width : Nat) (firstLine : Bool) (chunks : List (List Char)) :
    Option (List Char) × List (List Char) :=
  match chunks with
  | [] => (none, [])
  | c :: rest =>
    let chunks1 := if !firstLine && isAllWs c then rest else c :: rest
    let g := greedyPop width 0 chunks1
    let p :=
      match g.2.2 with
      | d :: rest2 =>
        if width < d.length then
          let hw := handleLongWord width g.2.1 d
          (g.1 ++ [hw.1], hw.2 :: rest2)
        else (g.1, d :: rest2)
      | [] => (g.1, ([] : List (List Char)))
    let line := dropLastWs p.1
    (if line.isEmpty then none else some line.flatten, p.2)

/-- Proof-side factoring of `wrapStep`: the long-word stage, applied to
the greedy fill's result triple. -/
def wrapPick (width : Nat) (g : List (List Char) × Nat × List (List Char)) :
    List (List Char) × List (List Char) :=
  match g.2.2 with
  | d :: rest2 =>
    if width < d.length then
      (g.1 ++ [(handleLongWord width g.2.1 d).1], (handleLongWord width g.2.1 d).2 :: rest2)
    else (g.1, d :: rest2)
  | [] => (g.1, ([] : List (List Char)))

/-- Proof-side factoring of `wrapStep`: the trailing-whitespace drop and
line emission. -/
def wrapEmit (p : List (List Char) × List (List Char)) :
    Option (List Char) × List (List Char) :=
  (if (dropLastWs p.1).isEmpty then none else some (dropLastWs p.1).flatten, p.2)

/-- Proof-side factoring of `wrapStep` after the leading-whitespace
drop. -/
def wrapCore (width : Nat) (chunks1 : List (List Char)) :
    Option (List Char) × List (List Char) :=
  wrapEmit (wrapPick width (greedyPop width 0 chunks1))

/-- Fuel-indexed outer loop of `_wrap_chunks`; the fuel only makes the
recursion structural and any fuel above `chunksMeasure chunks` yields
the loop's true result (each step strictly decreases the measure). -/
def wrapLoopF (wpred : Nat) : Nat → List (List Char) → List (List Char) → List (List Char)
  | 0, lines, _ => lines.reverse
  | _ + 1, lines, [] => lines.reverse
  | fuel + 1, lines, c :: rest =>
    let s := wrapStep (wpred + 1) lines.isEmpty (c :: rest)
    match s.1 with
    | some l => wrapLoopF wpred fuel (l :: lines) s.2
    | none => wrapLoopF wpred fuel lines s.2

/-- `textwrap.wrap(text, width)` with default options, assembled from the
pieces above.  CPython raises `ValueError` for `width ≤ 0`; every claim
assumes `max_len > 0`, so the zero case is arbitrary here. -/
def textwrapWrap (text : String) (width : Nat) : List String :=
  match width with
  | 0 => []
  | wpred + 1 =>
    let chunks := splitRuns (munge text.data)
    (wrapLoopF wpred (chunksMeasure chunks + 1) [] chunks).map String.mk

/-- `chunk_text` from `doc_ingestor.py`: `textwrap.wrap(text, max_len)`.
The Python parameter default is `max_len=1200`; callers of this model
pass 1200 explicitly where the source relies on the default. -/
def chunk_text (text : String) (max_len : Nat) : List String := textwrapWrap text max_len

/-- Accumulator body of `wordsCore`; `cur` holds the current word
reversed. -/
def wordsGo : List Char → List Char → List (List Char)
  | cur, [] => if cur.isEmpty then [] else [cur.reverse]
  | cur, c :: rest =>
    if pyWsChar c then
      if cur.isEmpty then wordsGo [] rest else cur.reverse :: wordsGo [] rest
    else wordsGo (c :: cur) rest

/-- The whitespace-normalized word sequence of a character list: maximal
non-whitespace runs, in order. -/
def wordsCore (cs : List Char) : List (List Char) := wordsGo [] cs

/-- The whitespace-normalized word sequence of a string. -/
def pyWords (s : String) : List String := (wordsCore s.data).map String.mk

/-- Concatenation of chunks with single spaces between them. -/
def joinWithSpaces : List String → String
  | [] => ""
  | [c] => c
  | c :: d :: rest => c ++ " " ++ joinWithSpaces (d :: rest)

/-- Character-level counterpart of `joinWithSpaces`. -/
def joinSepCore : List (List Char) → List Char
  | [] => []
  | [l] => l
  | l :: m :: rest => l ++ ' ' :: joinSepCore (m :: rest)

/-- The word chunks of a chunk list — the invariant-carrying notion used
to track reconstruction through the wrap loop. -/
def wordsOfChunks (chunks : List (List Char)) : List (List Char) :=
  chunks.filter (fun r => !isAllWs r)

/-- Invariant of the chunk list inside `_wrap_chunks`: every chunk is
nonempty and pure (entirely whitespace or entirely non-whitespace), and
chunk classes strictly alternate.  It holds for the initial run split
and is preserved by every loop iteration. -/
def pureChunks (chunks : List (List Char)) : Prop :=
  (∀ r ∈ chunks, r ≠ [] ∧ (∀ x ∈ r, pyWsChar x = isAllWs r)) ∧
  List.Chain' (fun a d => isAllWs a ≠ isAllWs d) chunks

/-- Every word chunk fits within the width; under this hypothesis the
long-word break only ever fires on whitespace runs. -/
def wordsFit (width : Nat) (chunks : List (List Char)) : Prop :=
  ∀ r ∈ chunks, isAllWs r = false → r.length ≤ width

/-- ASCII uppercasing of one character. -/
def pyUpperChar (c : Char) : Char :=
  if 97 ≤ c.toNat ∧ c.toNat ≤ 122 then Char.ofNat (c.toNat - 32) else c

/-- ASCII lowercasing of one character. -/
def pyLowerChar (c : Char) : Char :=
  if 65 ≤ c.toNat ∧ c.toNat ≤ 90 then Char.ofNat (c.toNat + 32) else c

/-- Python `str.upper()`; every string it is applied to here (HTTP
methods) is ASCII, where this model is exact. -/
def pyUpper (s : String) : String := String.mk (s.data.map pyUpperChar)

/-- Python `str.lower()`; every string it is applied to here (model
identifiers, the debug flag) is ASCII, where this model is exact. -/
def pyLower (s : String) : String := String.mk (s.data.map pyLowerChar)

/-- Python `str.strip()` over the recognized whitespace characters
(CPython also strips exotic Unicode whitespace, which this model leaves
out of scope). -/
def pyStrip (s : String) : String :=
  String.mk ((s.data.dropWhile pyWsChar).reverse.dropWhile pyWsChar).reverse

/-- The index configuration dict built inside `ensure_index_exists`,
identical in both modules: a knn vector field of dimension 1024 with
cosine similarity plus the metadata fields. -/
def indexConfig : Json :=
  .obj [
    ("settings", .obj [("index.knn", .bool true)]),
    ("mappings", .obj [
      ("properties", .obj [
        ("embedding", .obj [
          ("type", .str "knn_vector"), ("dimension", .num 1024),
          ("space_type", .str "cosinesimil"), ("mode", .str "on_disk"),
          ("compression_level", .str "16x"),
          ("method", .obj [
            ("name", .str "hnsw"), ("engine", .str "faiss"),
            ("parameters", .obj [("m", .num 16), ("ef_construction", .num 100)])])]),
        ("chunk_text", .obj [("type", .str "text")]),
        ("doc_id", .obj [("type", .str "keyword")]),
        ("chunk_id", .obj [("type", .str "integer")]),
        ("title", .obj [("type", .str "text")]),
        ("section", .obj [("type", .str "text")]),
        ("source", .obj [("type", .str "keyword")]),
        ("s3_key", .obj [("type", .str "keyword")]),
        ("url", .obj [("type", .str "keyword")]),
        ("tags", .obj [("type", .str "keyword")]),
        ("token_count", .obj [("type", .str "integer")]),
        ("created_at", .obj [("type", .str "date")]),
        ("updated_at", .obj [("type", .str "date")])])])]

namespace DocIngestor

/-- The `for output_item in payload["outputs"]` scan of `embed`: the
first list element that is a dict containing the key `embedding`. -/
def firstOutputsEmbedding : List Json → Option Json
  | [] => none
  | .obj fs :: rest =>
    match lookupField fs "embedding" with
    | some v => some v
    | none => firstOutputsEmbedding rest
  | _ :: rest => firstOutputsEmbedding rest

/-- The defensive second shape check of `embed`:
`if "outputs" in payload and isinstance(payload["outputs"], list)`
followed by the scan.  Returns `none` when the shape does not apply. -/
def outputsScan (payload : Json) : Except PyErr (Option Json) :=
  match inCheck payload "outputs" with
  | .error e => .error e
  | .ok false => .ok none
  | .ok true =>
    match getItem payload "outputs" with
    | .error e => .error e
    | .ok (.arr items) => .ok (firstOutputsEmbedding items)
    | .ok _ => .ok none

/-- The fixed part of the malformed-response error message of `embed`:
`No 'embedding' found in model response: `. -/
def malformedPrefix : String :=
  "No " ++ String.mk [Char.ofNat 39] ++ "embedding" ++ String.mk [Char.ofNat 39]
    ++ " found in model response: "

/-- Response parsing of `embed` in `doc_ingestor.py`: the direct
`embedding` field first, then the nested `outputs` shape, and otherwise a
`RuntimeError` whose message appends the first 1000 characters of the
dumped payload.  The blanket `except Exception` in the source logs and
re-raises the same exception, so errors pass through unchanged. -/
def embedParse (payload : Json) : Except PyErr Json :=
  match inCheck payload "embedding" with
  | .error e => .error e
  | .ok true => getItem payload "embedding"
  | .ok false =>
    match outputsScan payload with
    | .error e => .error e
    | .ok (some v) => .ok v
    | .ok none =>
      .error (.runtimeError (malformedPrefix ++ strTake (jsonDumps payload) 1000))

/-- The request body `native_request` of `embed`: `inputText` plus the
optional `dimensions` and `normalize` knobs. -/
def embedRequest (text : String) (dimensions : Option Int) (normalize : Option Bool) : Json :=
  .obj ([("inputText", Json.str text)]
    ++ (match dimensions with | some d => [("dimensions", Json.num d)] | none => [])
    ++ (match normalize with | some b => [("normalize", Json.bool b)] | none => []))

/-- `embed` from `doc_ingestor.py`.  `bedrockInvoke` is the oracle for
`bedrock.invoke_model` plus body read and `json.loads`, taking the model
id and request body; transport errors propagate.  The
`model_id or EMBED_MODEL_ID` default treats an empty string as unset. -/
def embed (bedrockInvoke : String → Json → Except PyErr Json) (embedModelId : String)
    (text : String) (dimensions : Option Int) (normalize : Option Bool)
    (modelId : Option String) : Except PyErr Json :=
  let mid :=
    match modelId with
    | some m => if m.isEmpty then embedModelId else m
    | none => embedModelId
  match bedrockInvoke mid (embedRequest text dimensions normalize) with
  | .error e => .error e
  | .ok payload => embedParse payload

/-- `ensure_index_exists` from `doc_ingestor.py`: the whole body is
wrapped in `try/except Exception` that logs and deliberately does not
re-raise, so neither a failing existence check nor a failing creation
(already exists, concurrent creator) escapes. -/
def ensure_index_exists (indexExists : Except PyErr Bool)
    (indexCreate : Json → Except PyErr Unit) : Except PyErr Unit :=
  match indexExists with
  | .error _ => .ok ()
  | .ok true => .ok ()
  | .ok false =>
    match indexCreate indexConfig with
    | .error _ => .ok ()
    | .ok _ => .ok ()

/-- One call to `index_chunk`: the arguments that form the indexed
document body. -/
structure IndexWrite where
  doc_id : String
  chunk_id : Nat
  chunk_text_value : String
  embedding : Json
  meta : List (String × Json)
  deriving Repr

/-- The body dict `index_chunk` sends to `os_client.index`: the fixed
fields with the metadata spread over them (`meta` keys would override on
collision, as `\x7b..., **meta\x7d` does). -/
def indexBody (w : IndexWrite) : Json :=
  .obj (dictMerge
    [("doc_id", Json.str w.doc_id), ("chunk_id", Json.num (w.chunk_id : Int)),
      ("chunk_text", Json.str w.chunk_text_value), ("embedding", w.embedding)]
    w.meta)

/-- The chunk loop of the ingestion handler
(`for i, chunk_text_value in enumerate(chunks)`): embed each chunk and
index it under position `i`.  Returns the index writes performed in
order, and the first embedding failure (which aborts the remaining
chunks of the document), if any. -/
def ingestChunks (embedF : String → Except PyErr Json) (docId : String)
    (meta : List (String × Json)) : Nat → List String → List IndexWrite × Option PyErr
  | _, [] => ([], none)
  | i, c :: rest =>
    match embedF c with
    | .error e => ([], some e)
    | .ok vec =>
      let r := ingestChunks embedF docId meta (i + 1) rest
      (⟨docId, i, c, vec, meta⟩ :: r.1, r.2)

/-- Per-record document processing of the ingestion handler (lines
260-274): derive `doc_id` from the object key, fix the metadata, chunk
the fetched text with the default `max_len` of 1200 and run the chunk
loop.  `md5hex` abstracts `hashlib.md5(key.encode()).hexdigest()`; the
verified properties use only that the same key yields the same digest. -/
def processRecord (md5hex : String → String) (embedF : String → Except PyErr Json)
    (key text : String) : List IndexWrite × Option PyErr :=
  let docId := md5hex key
  let meta := [("source", Json.str "s3"), ("s3_key", Json.str key)]
  ingestChunks embedF docId meta 0 (chunk_text text 1200)

end DocIngestor

namespace QueryProcessor

/-- The configuration surface of `query_processor.py` read from
environment variables at import time. -/
structure Env where
  corsAllowOrigin : String
  debugPublicErrors : String
  embedModelId : String
  genModelId : String
  genInferenceProfileId : Option String
  deriving DecidableEq, Repr

/-- The environment-variable defaults of the source module. -/
def defaultEnv : Env :=
  ⟨"*", "false", "amazon.titan-embed-text-v2:0",
    "anthropic.claude-3-5-sonnet-20241022-v2:0", none⟩

/-- Oracles for the remote collaborators of the query module: Bedrock
embedding and generation calls (model id and request body to parsed
payload), the OpenSearch search and index-management calls.  Each result
is the parsed response payload or a Python-level exception covering
transport errors, body reads and `json.loads`. -/
structure Remote where
  embedInvoke : String → Json → Except PyErr Json
  searchInvoke : Json → Except PyErr Json
  genInvoke : String → Json → Except PyErr Json
  indexExists : Except PyErr Bool
  indexCreate : Json → Except PyErr Unit

/-- `ensure_index_exists` from `query_processor.py`, byte-for-byte the
logic of its `doc_ingestor.py` twin: every failure is caught, logged and
swallowed. -/
def ensure_index_exists (r : Remote) : Except PyErr Unit :=
  match r.indexExists with
  | .error _ => .ok ()
  | .ok true => .ok ()
  | .ok false =>
    match r.indexCreate indexConfig with
    | .error _ => .ok ()
    | .ok _ => .ok ()

/-- The CORS header dict, with the configured allowed origin. -/
def corsHeaders (env : Env) : List (String × String) :=
  [("Access-Control-Allow-Origin", env.corsAllowOrigin),
    ("Access-Control-Allow-Headers", "Content-Type, Authorization"),
    ("Access-Control-Allow-Methods", "POST, OPTIONS")]

/-- The Lambda proxy response shape returned by the handler. -/
structure HttpResponse where
  statusCode : Nat
  headers : List (String × String)
  body : String
  deriving DecidableEq, Repr

/-- `_response`: a JSON response with `Content-Type` first and the CORS
headers spread after it, the body serialized with `json.dumps`. -/
def response (env : Env) (status : Nat) (bodyObj : Json) : HttpResponse :=
  ⟨status, ("Content-Type", "application/json") :: corsHeaders env, jsonDumps bodyObj⟩

/-- `embed` from `query_processor.py`: a single `payload["embedding"]`
subscript — unlike the ingestion module there is no fallback to the
nested `outputs` shape.  The `except Exception` logs and re-raises. -/
def embed (env : Env) (r : Remote) (text : String) : Except PyErr Json :=
  match r.embedInvoke env.embedModelId (Json.obj [("inputText", Json.str text)]) with
  | .error e => .error e
  | .ok payload => getItem payload "embedding"

/-- The kNN search request body of `search`. -/
def searchRequest (vec : Json) (k : Nat) : Json :=
  .obj [("size", Json.num (k : Int)),
    ("query", .obj [("knn", .obj [("embedding",
      .obj [("vector", vec), ("k", Json.num (k : Int))])])])]

/-- The per-hit expression of the logging comprehension in `search`:
`h["_source"].get("s3_key") or h["_source"].get("source")`; a hit
without `_source` raises `KeyError` here, before the result list is
built. -/
def hitLogSource (h : Json) : Except PyErr Json := do
  let src ← getItem h "_source"
  let a ← dictGet src "s3_key" .null
  if pyTruthy a then pure a else dictGet src "source" .null

/-- One element of the result comprehension of `search`: text, source
(s3 key falling back to source, then `None`), and score, all via
defaulted `.get`. -/
def hitContext (h : Json) : Except PyErr Json := do
  let src1 ← dictGet h "_source" (.obj [])
  let text ← dictGet src1 "chunk_text" (.str "")
  let src2 ← dictGet h "_source" (.obj [])
  let s3 ← dictGet src2 "s3_key" .null
  let srcv ←
    if pyTruthy s3 then pure s3
    else do
      let src3 ← dictGet h "_source" (.obj [])
      dictGet src3 "source" .null
  let score ← dictGet h "_score" .null
  pure (Json.obj [("text", text), ("source", srcv), ("score", score)])

/-- Parsing of the OpenSearch response inside `search`: the defaulted
`hits.hits` path, the total-hits log value, the source log comprehension
(whose exceptions fire first), then the context list.  Iterating a
non-list `hits` value is approximated as `TypeError` (unreachable in the
claims). -/
def parseHits (res : Json) : Except PyErr (List Json) := do
  let outer ← dictGet res "hits" (.obj [])
  let hitsRaw ← dictGet outer "hits" (.arr [])
  let hits ←
    match hitsRaw with
    | .arr xs => pure xs
    | _ => Except.error PyErr.typeError
  let outer2 ← dictGet res "hits" (.obj [])
  let _ ← dictGet outer2 "total" .null
  let _ ← hits.mapM hitLogSource
  hits.mapM hitContext

/-- `search` from `query_processor.py`: build the kNN query, invoke
OpenSearch, parse the hits. -/
def search (r : Remote) (vec : Json) (k : Nat) : Except PyErr (List Json) := do
  let res ← r.searchInvoke (searchRequest vec k)
  parseHits res

/-- The fixed system instruction of `answer_with_context`. -/
def systemPrompt : String :=
  "You are an AWS tutor. Only answer using the provided Context. "
    ++ "If the Context is insufficient or off-topic, say you don"
    ++ String.mk [Char.ofNat 39] ++ "t know. "
    ++ "Always include citations as [Snippet N] where N matches the provided snippets. "
    ++ "Never use external knowledge."

/-- Concatenation with blank lines, for the snippet blob. -/
def joinBlank : List String → String
  | [] => ""
  | [x] => x
  | x :: y :: rest => x ++ "\n\n" ++ joinBlank (y :: rest)

/-- The numbered snippet blob: `Snippet \x7bi+1\x7d:\n\x7bc['text']\x7d`
joined with blank lines; a context without a `text` key raises
`KeyError`. -/
def contextBlob (contexts : List Json) : Except PyErr String := do
  let parts ← contexts.enum.mapM (fun p => do
    let t ← getItem p.2 "text"
    pure ("Snippet " ++ toString (p.1 + 1) ++ ":\n" ++ pyStr t))
  pure (joinBlank parts)

/-- The inference target: the inference profile id when configured and
non-empty (Python truthiness), else the generation model id. -/
def modelIdToUse (env : Env) : String :=
  match env.genInferenceProfileId with
  | some p => if p.isEmpty then env.genModelId else p
  | none => env.genModelId

/-- The generation request body: a single user message carrying the
prompt, `max_tokens` 500, and `anthropic_version` appended only for
Anthropic model ids. -/
def genRequest (mid : String) (prompt : String) : Json :=
  let base := [("messages", Json.arr [Json.obj [("role", Json.str "user"),
      ("content", Json.arr [Json.obj [("type", Json.str "text"), ("text", Json.str prompt)]])]]),
    ("max_tokens", Json.num 500)]
  if containsSubstr (pyLower mid) "anthropic" then
    Json.obj (base ++ [("anthropic_version", Json.str "bedrock-2023-05-31")])
  else Json.obj base

/-- The response-parsing branch of `answer_with_context`: for Anthropic
ids, `payload.get("content") or []` then
`content and isinstance(content, list) and "text" in content[0]`; for
other ids, the nested `output[0]["content"][0]` path guarded by
truthiness, `isinstance` and an `is not None` test.  Returns the
extracted value (`none` when every guard fell through), raising exactly
where Python would (`AttributeError` for `.get` on a non-dict,
`TypeError` for `in` or subscripts on unsuitable receivers). -/
def extractAnswer (mid : String) (payload : Json) : Except PyErr (Option Json) :=
  if containsSubstr (pyLower mid) "anthropic" then
    match dictGet payload "content" .null with
    | .error e => .error e
    | .ok contentRaw =>
      match (if pyTruthy contentRaw then contentRaw else Json.arr []) with
      | .arr (first :: _) =>
        (match inCheck first "text" with
        | .error e => .error e
        | .ok true =>
          match getItem first "text" with
          | .error e => .error e
          | .ok a => .ok (some a)
        | .ok false => .ok none)
      | _ => .ok none
  else
    match dictGet payload "output" .null with
    | .error e => .error e
    | .ok outputRaw =>
      match (if pyTruthy outputRaw then outputRaw else Json.arr []) with
      | .arr (o0 :: _) =>
        (match dictGet o0 "content" .null with
        | .error e => .error e
        | .ok contentV =>
          if pyTruthy contentV then
            match contentV with
            | .arr (c0 :: _) =>
              (match dictGet c0 "text" .null with
              | .error e => .error e
              | .ok .null => .ok none
              | .ok t => .ok (some t))
            | _ => .ok none
          else .ok none)
      | _ => .ok none

/-- The tail of `answer_with_context` after the model call: extract the
answer, raise `ValueError("Unexpected model response format")` when
`answer is None` (no guard matched, or the extracted value is Python
`None`), then run the `len(answer)` success log line — which raises
`TypeError` for numbers and booleans but succeeds for strings, lists
and dicts — and return the extracted value unchanged, whatever its
type. -/
def parseAnswer (mid : String) (payload : Json) : Except PyErr Json :=
  match extractAnswer mid payload with
  | .error e => .error e
  | .ok none => .error (.valueError "Unexpected model response format")
  | .ok (some .null) => .error (.valueError "Unexpected model response format")
  | .ok (some (.num _)) => .error .typeError
  | .ok (some (.bool _)) => .error .typeError
  | .ok (some (.str s)) => .ok (.str s)
  | .ok (some (.arr xs)) => .ok (.arr xs)
  | .ok (some (.obj fs)) => .ok (.obj fs)

/-- `answer_with_context` from `query_processor.py`: build the grounded
prompt, invoke the generative model, parse the answer out of the
response.  The returned value is whatever `answer` holds — a string for
the recognized shapes, but possibly a list or dict, which the source
returns as-is.  The `except Exception` logs and re-raises. -/
def answer_with_context (env : Env) (r : Remote) (question : String)
    (contexts : List Json) : Except PyErr Json := do
  let mid := modelIdToUse env
  let blob ← contextBlob contexts
  let prompt := systemPrompt ++ "\n\nQuestion:\n" ++ question ++ "\n\nContext:\n"
    ++ blob ++ "\n\nAnswer:"
  let payload ← r.genInvoke mid (genRequest mid prompt)
  parseAnswer mid payload

/-- Externally observable side effects of one handler invocation. -/
inductive Effect where
  | ensureIndex
  | embedCall (text : String)
  | searchCall (k : Nat)
  | generateCall
  deriving DecidableEq, Repr

/-- A query event: the HTTP method from
`event.requestContext.http.method` (absent defaults to the empty
string), and the request body.  The body is carried as its parsed JSON
value; `none` stands for an absent or empty body, for which the source
parses `"\x7b\x7d"`.  A body that is not valid JSON makes `json.loads`
raise and take the generic 500 path, which no claim exercises. -/
structure QueryEvent where
  method : Option String
  body : Option Json

/-- The `DEBUG_PUBLIC_ERRORS` test:
`os.environ.get(...).lower() in ("1", "true", "yes")`. -/
def debugEnabled (env : Env) : Bool :=
  (pyLower env.debugPublicErrors) == "1" || (pyLower env.debugPublicErrors) == "true"
    || (pyLower env.debugPublicErrors) == "yes"

/-- `type(e).__name__` of a modelled exception. -/
def errTypeName : PyErr → String
  | .keyError _ => "KeyError"
  | .typeError => "TypeError"
  | .attributeError => "AttributeError"
  | .valueError _ => "ValueError"
  | .runtimeError _ => "RuntimeError"
  | .clientError _ => "ClientError"

/-- `str(e)` of a modelled exception; the interpreter-generated texts of
`TypeError` and `AttributeError` are not modelled (no verified property
looks at them). -/
def errMessage : PyErr → String
  | .keyError k => String.mk [Char.ofNat 39] ++ k ++ String.mk [Char.ofNat 39]
  | .typeError => ""
  | .attributeError => ""
  | .valueError m => m
  | .runtimeError m => m
  | .clientError m => m

/-- The `except Exception` arm of the handler: a generic 500, enriched
with the error type and a 500-character message excerpt only when the
debug flag is enabled. -/
def errorResponse (env : Env) (e : PyErr) : HttpResponse :=
  if debugEnabled env then
    response env 500 (Json.obj [("error", Json.str "internal_error"),
      ("error_type", Json.str (errTypeName e)),
      ("message", Json.str (strTake (errMessage e) 500))])
  else
    response env 500 (Json.obj [("error", Json.str "internal_error")])

/-- Body parsing and question extraction of the handler:
`json.loads(event.get("body") or "\x7b\x7d").get("question", "").strip()`.
A non-dict body or a non-string question value raises `AttributeError`
(`.get` or `.strip` on an unsuitable receiver). -/
def questionOf (body : Option Json) : Except PyErr String :=
  match body.getD (Json.obj []) with
  | .obj fs =>
    match (lookupField fs "question").getD (Json.str "") with
    | .str s => .ok (pyStrip s)
    | _ => .error .attributeError
  | _ => .error .attributeError

/-- The `\x7b"answer": ..., "sources": [...]\x7d` body of the 200
response, with `snippet_index` spread together with each context. -/
def mkSuccessBody (ans : Json) (contexts : List Json) : Except PyErr Json := do
  let sources ← contexts.enum.mapM (fun p =>
    match p.2 with
    | .obj fs => pure (Json.obj (dictMerge [("snippet_index", Json.num ((p.1 : Int) + 1))] fs))
    | _ => Except.error PyErr.typeError)
  pure (Json.obj [("answer", ans), ("sources", Json.arr sources)])

/-- The `try` block of the handler, with the effect trace: schema
provisioning first, then the OPTIONS early return, question validation
(strip, 4000-character truncation, emptiness check), then
embed / search / answer / response assembly.  The returned `Except` is
the value or the exception reaching the handler's `except` arm. -/
def processQuery (env : Env) (r : Remote) (event : QueryEvent) :
    Except PyErr HttpResponse × List Effect :=
  match ensure_index_exists r with
  | .error e => (.error e, [Effect.ensureIndex])
  | .ok _ =>
    let tr0 := [Effect.ensureIndex]
    let method := pyUpper (event.method.getD "")
    if method = "OPTIONS" then
      (.ok ⟨204, corsHeaders env, ""⟩, tr0)
    else
      match questionOf event.body with
      | .error e => (.error e, tr0)
      | .ok q0 =>
        let q := if 4000 < q0.length then strTake q0 4000 else q0
        if q.isEmpty then
          (.ok (response env 400 (Json.obj [("error", Json.str "question required")])), tr0)
        else
          match embed env r q with
          | .error e => (.error e, tr0 ++ [Effect.embedCall q])
          | .ok qvec =>
            match search r qvec 5 with
            | .error e => (.error e, tr0 ++ [Effect.embedCall q, Effect.searchCall 5])
            | .ok contexts =>
              match answer_with_context env r q contexts with
              | .error e =>
                (.error e, tr0 ++ [Effect.embedCall q, Effect.searchCall 5, Effect.generateCall])
              | .ok ans =>
                match mkSuccessBody ans contexts with
                | .error e =>
                  (.error e, tr0 ++ [Effect.embedCall q, Effect.searchCall 5, Effect.generateCall])
                | .ok bodyObj =>
                  (.ok (response env 200 bodyObj),
                    tr0 ++ [Effect.embedCall q, Effect.searchCall 5, Effect.generateCall])

/-- The Lambda handler of `query_processor.py`: the `try` block above
with its `except Exception` arm converting any exception into the
generic (optionally debug-enriched) 500 response.  The `finally` block
only flushes buffered logs and does not affect the returned value. -/
def handler (env : Env) (r : Remote) (event : QueryEvent) : HttpResponse × List Effect :=
  match processQuery env r event with
  | (.ok resp, tr) => (resp, tr)
  | (.error e, tr) => (errorResponse env e, tr)

end QueryProcessor

/-!
Specification-side notions used to state the claims: the two embedding
response shapes, the two generation response shapes, and the shape of a
request without a usable question.  These follow the spec's wording and
are compared against the behaviour of the source-derived functions
above.
-/

/-- Spec notion: the direct embedding shape
`\x7b"embedding": [...]\x7d` — the vector stored under the top-level
`embedding` key. -/
def directEmbedding : Json → Option Json
  | .obj fs => lookupField fs "embedding"
  | _ => none

/-- Spec notion: the nested embedding shape
`\x7b"outputs": [\x7b"embedding": [...]\x7d]\x7d` — the vector of the
first output entry carrying one. -/
def nestedEmbedding : Json → Option Json
  | .obj fs =>
    match lookupField fs "outputs" with
    | some (.arr items) => DocIngestor.firstOutputsEmbedding items
    | _ => none
  | _ => none

/-- Spec notion: text extractable from the Anthropic content-block-list
shape — the string under `text` in the first block of a non-empty
`content` list. -/
def anthropicShapeText (payload : Json) : Option String :=
  match payload with
  | .obj fs =>
    match lookupField fs "content" with
    | some (.arr (first :: _)) =>
      match first with
      | .obj bf =>
        match lookupField bf "text" with
        | some (.str s) => some s
        | _ => none
      | _ => none
    | _ => none
  | _ => none

/-- Spec notion: text extractable from the nested output/content shape —
the string under `text` in the first content entry of the first output
entry. -/
def nestedShapeText (payload : Json) : Option String :=
  match payload with
  | .obj fs =>
    match lookupField fs "output" with
    | some (.arr (o0 :: _)) =>
      match o0 with
      | .obj og =>
        match lookupField og "content" with
        | some (.arr (c0 :: _)) =>
          match c0 with
          | .obj cf =>
            match lookupField cf "text" with
            | some (.str s) => some s
            | _ => none
          | _ => none
        | _ => none
      | _ => none
    | _ => none
  | _ => none

/-- Spec notion: a query event whose question field is empty or missing —
no body, or a JSON-object body without a `question` field or with the
empty string there. -/
def emptyOrMissingQuestion : Option Json → Prop
  | none => True
  | some (.obj fs) =>
    lookupField fs "question" = none ∨ lookupField fs "question" = some (Json.str "")
  | some _ => False

/-- A remote oracle whose every call fails with a transport-level error
and whose index already exists; used to instantiate theorems at concrete
inputs on paths that perform no remote call. -/
def stubRemote : QueryProcessor.Remote :=
  ⟨fun _ _ => .error (.clientError "unavailable"), fun _ => .error (.clientError "unavailable"),
    fun _ _ => .error (.clientError "unavailable"), .ok true, fun _ => .ok ()⟩

/-- A remote oracle whose Bedrock calls return the fixed payload. -/
def constRemote (payload : Json) : QueryProcessor.Remote :=
  ⟨fun _ _ => .ok payload, fun _ => .ok payload, fun _ _ => .ok payload, .ok true,
    fun _ => .ok ()⟩

/-- A remote oracle whose embedding call returns the direct shape, whose
search finds no hits, and whose generative call returns a response whose
first content entry carries a list under `text` — no extractable
text. -/
def listAnswerRemote : QueryProcessor.Remote :=
  ⟨fun _ _ => .ok (Json.obj [("embedding", Json.arr [])]),
   fun _ => .ok (Json.obj []),
   fun _ _ => .ok (Json.obj [("content",
     Json.arr [Json.obj [("text", Json.arr [Json.str "x"])]])]),
   .ok true, fun _ => .ok ()⟩

/-- A concrete stand-in for the key digest, used to instantiate the
ingestion theorem. -/
def md5Stub (k : String) : String := "h" ++ k

/-- A concrete embedding oracle that always succeeds with an empty
vector. -/
def embedStub (c : String) : Except PyErr Json := .ok (Json.arr [])

/-!
Helper lemmas shared by the claim theorems.
-/

/-- The ingestion module's `ensure_index_exists` returns normally for
every outcome of the existence check and the creation call. -/
theorem DocIngestor.ensure_ok_ingest (er : Except PyErr Bool) (cr : Json → Except PyErr Unit) :
    DocIngestor.ensure_index_exists er cr = .ok () := by
  unfold DocIngestor.ensure_index_exists
  cases er with
  | error e => rfl
  | ok b =>
    cases b
    · cases cr indexConfig with
      | error e => rfl
      | ok u => rfl
    · rfl

/-- The query module's `ensure_index_exists` returns normally for every
outcome of the existence check and the creation call. -/
theorem QueryProcessor.ensure_ok_query (r : QueryProcessor.Remote) :
    QueryProcessor.ensure_index_exists r = .ok () := by
  unfold QueryProcessor.ensure_index_exists
  cases r.indexExists with
  | error e => rfl
  | ok b =>
    cases b
    · cases r.indexCreate indexConfig with
      | error e => rfl
      | ok u => rfl
    · rfl

/-- The handler's 400 path: when the method is not OPTIONS and the
stripped question comes out empty, the response is the validation error
and only schema provisioning has run. -/
theorem QueryProcessor.handler_400 (env : QueryProcessor.Env) (r : QueryProcessor.Remote)
    (event : QueryProcessor.QueryEvent)
    (hm : pyUpper (event.method.getD "") ≠ "OPTIONS")
    (hq : QueryProcessor.questionOf event.body = .ok "") :
    QueryProcessor.handler env r event =
      (QueryProcessor.response env 400 (Json.obj [("error", Json.str "question required")]),
        [QueryProcessor.Effect.ensureIndex]) := by
  unfold QueryProcessor.handler QueryProcessor.processQuery
  rw [QueryProcessor.ensure_ok_query, hq, if_neg hm]
  rfl

/-- C9: for every sequence of outcomes of the index-existence check and
the index-creation call — a second call when the index already exists,
and a creation racing a concurrent creator included — the
schema-creation operation of both modules returns normally: every
failure is caught, logged, and execution continues. -/
theorem ensure_index_never_raises (er : Except PyErr Bool) (cr : Json → Except PyErr Unit)
    (r : QueryProcessor.Remote) :
    DocIngestor.ensure_index_exists er cr = .ok () ∧
    QueryProcessor.ensure_index_exists r = .ok () :=
  ⟨DocIngestor.ensure_ok_ingest er cr, QueryProcessor.ensure_ok_query r⟩

/-- C5 (amended): a query event whose method is OPTIONS is answered with
status 204, the CORS headers and an empty body, and neither embedding
nor search nor generation runs — but schema provisioning does run before
the method check, so the handler is not entirely free of pipeline
work. -/
theorem options_preflight_204 (env : QueryProcessor.Env) (r : QueryProcessor.Remote)
    (event : QueryProcessor.QueryEvent)
    (h : pyUpper (event.method.getD "") = "OPTIONS") :
    QueryProcessor.handler env r event =
      (⟨204, QueryProcessor.corsHeaders env, ""⟩, [QueryProcessor.Effect.ensureIndex]) := by
  unfold QueryProcessor.handler QueryProcessor.processQuery
  rw [QueryProcessor.ensure_ok_query, h, if_pos rfl]

/-- Witness for C5 at a concrete OPTIONS event. -/
theorem options_preflight_204_witness :
    pyUpper ((QueryProcessor.QueryEvent.mk (some "OPTIONS") none).method.getD "") = "OPTIONS" ∧
    QueryProcessor.handler QueryProcessor.defaultEnv stubRemote ⟨some "OPTIONS", none⟩ =
      (⟨204, QueryProcessor.corsHeaders QueryProcessor.defaultEnv, ""⟩,
        [QueryProcessor.Effect.ensureIndex]) :=
  ⟨by decide, options_preflight_204 QueryProcessor.defaultEnv stubRemote ⟨some "OPTIONS", none⟩
    (by decide)⟩

/-- Counterexample to C5 as stated: on a concrete OPTIONS event the
handler does perform schema provisioning, so "no pipeline work (no
schema provisioning, ...)" fails. -/
theorem options_preflight_204_cex :
    QueryProcessor.Effect.ensureIndex ∈
      (QueryProcessor.handler QueryProcessor.defaultEnv stubRemote ⟨some "OPTIONS", none⟩).2 := by
  decide

/-- C2 (amended): for every vector, the ingestion-path embed parses both
the direct shape and the nested outputs shape to the identical vector;
the query-path embed parses only the direct shape and raises a KeyError
on the nested shape instead of checking it. -/
theorem embed_both_shapes (v : Json) (env : QueryProcessor.Env) (text : String)
    (mid : Option String) (dims : Option Int) (norm : Option Bool) :
    DocIngestor.embed (fun _ _ => .ok (Json.obj [("embedding", v)])) env.embedModelId
        text dims norm mid = .ok v ∧
    DocIngestor.embed (fun _ _ => .ok (Json.obj [("outputs", Json.arr [Json.obj [("embedding", v)]])]))
        env.embedModelId text dims norm mid = .ok v ∧
    QueryProcessor.embed env (constRemote (Json.obj [("embedding", v)])) text = .ok v ∧
    QueryProcessor.embed env
        (constRemote (Json.obj [("outputs", Json.arr [Json.obj [("embedding", v)]])])) text =
      .error (.keyError "embedding") := by
  refine ⟨rfl, rfl, rfl, rfl⟩

/-- Counterexample to C2 as stated: one concrete nested-shape payload is
parsed to the vector by the ingestion path but raises on the query path,
so the two paths do not resolve both shapes to the identical vector. -/
theorem embed_both_shapes_cex :
    DocIngestor.embedParse
        (Json.obj [("outputs", Json.arr [Json.obj [("embedding", Json.arr [Json.num 1])]])]) =
      .ok (Json.arr [Json.num 1]) ∧
    QueryProcessor.embed QueryProcessor.defaultEnv
        (constRemote (Json.obj [("outputs", Json.arr [Json.obj [("embedding", Json.arr [Json.num 1])]])]))
        "q" = .error (.keyError "embedding") :=
  ⟨rfl, rfl⟩

/-- C6 (amended): a query event whose method is not OPTIONS and whose
question field is empty or missing is answered with HTTP 400 and the
exact body rendering of the validation error; the effect trace holds
only the schema provisioning, so no embedding and no search call is
made.  (An OPTIONS event with an empty question is answered 204 by the
earlier preflight branch instead.) -/
theorem empty_question_400 (env : QueryProcessor.Env) (r : QueryProcessor.Remote)
    (event : QueryProcessor.QueryEvent)
    (hm : pyUpper (event.method.getD "") ≠ "OPTIONS")
    (hq : emptyOrMissingQuestion event.body) :
    QueryProcessor.handler env r event =
      (QueryProcessor.response env 400 (Json.obj [("error", Json.str "question required")]),
        [QueryProcessor.Effect.ensureIndex]) ∧
    (QueryProcessor.handler env r event).1.body = "\x7b\"error\": \"question required\"\x7d" := by
  have hq0 : QueryProcessor.questionOf event.body = .ok "" := by
    cases hb : event.body with
    | none => rfl
    | some j =>
      rw [hb] at hq
      cases j with
      | obj fs =>
        show (match (lookupField fs "question").getD (Json.str "") with
          | Json.str s => Except.ok (pyStrip s)
          | _ => Except.error PyErr.attributeError) = Except.ok ""
        rcases hq with h | h
        · rw [h]
          rfl
        · rw [h]
          rfl
      | null => exact False.elim hq
      | bool b => exact False.elim hq
      | num n => exact False.elim hq
      | str s => exact False.elim hq
      | arr xs => exact False.elim hq
  have hh := QueryProcessor.handler_400 env r event hm hq0
  exact ⟨hh, by rw [hh]; rfl⟩

/-- Witness for C6 at a concrete event with a missing question field. -/
theorem empty_question_400_witness :
    pyUpper ((QueryProcessor.QueryEvent.mk (some "POST") (some (Json.obj []))).method.getD "")
        ≠ "OPTIONS" ∧
    emptyOrMissingQuestion (some (Json.obj [])) ∧
    (QueryProcessor.handler QueryProcessor.defaultEnv stubRemote ⟨some "POST", some (Json.obj [])⟩ =
      (QueryProcessor.response QueryProcessor.defaultEnv 400
          (Json.obj [("error", Json.str "question required")]),
        [QueryProcessor.Effect.ensureIndex]) ∧
    (QueryProcessor.handler QueryProcessor.defaultEnv stubRemote
        ⟨some "POST", some (Json.obj [])⟩).1.body = "\x7b\"error\": \"question required\"\x7d") :=
  ⟨by decide, Or.inl rfl,
    empty_question_400 QueryProcessor.defaultEnv stubRemote ⟨some "POST", some (Json.obj [])⟩
      (by decide) (Or.inl rfl)⟩

/-- Counterexample to C6 as stated: a concrete OPTIONS event with a
missing question field is answered 204, not 400. -/
theorem empty_question_400_cex :
    emptyOrMissingQuestion (some (Json.obj [])) ∧
    (QueryProcessor.handler QueryProcessor.defaultEnv stubRemote
        ⟨some "OPTIONS", some (Json.obj [])⟩).1.statusCode = 204 ∧
    (QueryProcessor.handler QueryProcessor.defaultEnv stubRemote
        ⟨some "OPTIONS", some (Json.obj [])⟩).1.statusCode ≠ 400 :=
  ⟨Or.inl rfl, by decide, by decide⟩

/-- A string made of recognized whitespace characters strips to the
empty string. -/
theorem pyStrip_empty_of_ws (s : String) (h : s.data.all pyWsChar = true) : pyStrip s = "" := by
  unfold pyStrip
  have h1 : s.data.dropWhile pyWsChar = [] := by
    rw [List.dropWhile_eq_nil_iff]
    intro x hx
    exact List.all_eq_true.mp h x hx
  rw [h1]
  rfl

/-- C10 (amended): a query event whose method is not OPTIONS and whose
question value is a string of only whitespace characters is stripped to
emptiness before validation, so the handler answers exactly as for an
empty question — HTTP 400 with the validation body — with only the
schema provisioning in the effect trace, hence no embedding and no
search call.  (An OPTIONS event with such a question is answered 204 by
the preflight branch instead.) -/
theorem whitespace_question_400 (env : QueryProcessor.Env) (r : QueryProcessor.Remote)
    (event : QueryProcessor.QueryEvent) (fs : List (String × Json)) (s : String)
    (hm : pyUpper (event.method.getD "") ≠ "OPTIONS")
    (hb : event.body = some (Json.obj fs))
    (hqf : lookupField fs "question" = some (Json.str s))
    (hws : s.data.all pyWsChar = true) :
    QueryProcessor.handler env r event =
      (QueryProcessor.response env 400 (Json.obj [("error", Json.str "question required")]),
        [QueryProcessor.Effect.ensureIndex]) ∧
    (QueryProcessor.handler env r event).1.body = "\x7b\"error\": \"question required\"\x7d" := by
  have hq0 : QueryProcessor.questionOf event.body = .ok "" := by
    rw [hb]
    show (match (lookupField fs "question").getD (Json.str "") with
      | Json.str t => Except.ok (pyStrip t)
      | _ => Except.error PyErr.attributeError) = Except.ok ""
    rw [hqf]
    show Except.ok (pyStrip s) = Except.ok ""
    rw [pyStrip_empty_of_ws s hws]
  have hh := QueryProcessor.handler_400 env r event hm hq0
  exact ⟨hh, by rw [hh]; rfl⟩

/-- Witness for C10 at a concrete event whose question is whitespace. -/
theorem whitespace_question_400_witness :
    pyUpper ((QueryProcessor.QueryEvent.mk (some "POST")
        (some (Json.obj [("question", Json.str "  \t ")]))).method.getD "") ≠ "OPTIONS" ∧
    lookupField [("question", Json.str "  \t ")] "question" = some (Json.str "  \t ") ∧
    ("  \t ").data.all pyWsChar = true ∧
    (QueryProcessor.handler QueryProcessor.defaultEnv stubRemote
        ⟨some "POST", some (Json.obj [("question", Json.str "  \t ")])⟩ =
      (QueryProcessor.response QueryProcessor.defaultEnv 400
          (Json.obj [("error", Json.str "question required")]),
        [QueryProcessor.Effect.ensureIndex]) ∧
    (QueryProcessor.handler QueryProcessor.defaultEnv stubRemote
        ⟨some "POST", some (Json.obj [("question", Json.str "  \t ")])⟩).1.body =
      "\x7b\"error\": \"question required\"\x7d") :=
  ⟨by decide, rfl, by decide,
    whitespace_question_400 QueryProcessor.defaultEnv stubRemote
      ⟨some "POST", some (Json.obj [("question", Json.str "  \t ")])⟩
      [("question", Json.str "  \t ")] "  \t " (by decide) rfl rfl (by decide)⟩

/-- Counterexample to C10 as stated: a concrete OPTIONS event whose
question is a single space is answered 204, not 400. -/
theorem whitespace_question_400_cex :
    (" ").data.all pyWsChar = true ∧
    (QueryProcessor.handler QueryProcessor.defaultEnv stubRemote
        ⟨some "OPTIONS", some (Json.obj [("question", Json.str " ")])⟩).1.statusCode = 204 ∧
    (QueryProcessor.handler QueryProcessor.defaultEnv stubRemote
        ⟨some "OPTIONS", some (Json.obj [("question", Json.str " ")])⟩).1.statusCode ≠ 400 :=
  ⟨by decide, by decide, by decide⟩

/-- C8: whenever the try-block of the query handler ends in an exception
— any failure of body parsing, embedding, search, generation or response
assembly — the handler catches it and, with the debug-error-exposure
flag at its disabled default, answers HTTP 500 with exactly
the internal_error body: no error type, no message, and no exception
escapes (the handler is total and the trace `tr` of work done is
returned unchanged). -/
theorem unhandled_error_500 (env : QueryProcessor.Env) (r : QueryProcessor.Remote)
    (event : QueryProcessor.QueryEvent) (e : PyErr) (tr : List QueryProcessor.Effect)
    (hd : QueryProcessor.debugEnabled env = false)
    (hp : QueryProcessor.processQuery env r event = (.error e, tr)) :
    QueryProcessor.handler env r event =
      (QueryProcessor.response env 500 (Json.obj [("error", Json.str "internal_error")]), tr) ∧
    (QueryProcessor.handler env r event).1.statusCode = 500 ∧
    (QueryProcessor.handler env r event).1.body = "\x7b\"error\": \"internal_error\"\x7d" := by
  have he : QueryProcessor.errorResponse env e =
      QueryProcessor.response env 500 (Json.obj [("error", Json.str "internal_error")]) := by
    unfold QueryProcessor.errorResponse
    rw [hd]
    rfl
  have hh : QueryProcessor.handler env r event =
      (QueryProcessor.response env 500 (Json.obj [("error", Json.str "internal_error")]), tr) := by
    unfold QueryProcessor.handler
    rw [hp, ← he]
  exact ⟨hh, by rw [hh]; rfl, by rw [hh]; rfl⟩

/-- Witness for C8 at a concrete event whose embedding call fails. -/
theorem unhandled_error_500_witness :
    QueryProcessor.debugEnabled QueryProcessor.defaultEnv = false ∧
    QueryProcessor.processQuery QueryProcessor.defaultEnv stubRemote
        ⟨some "POST", some (Json.obj [("question", Json.str "hi")])⟩ =
      (.error (.clientError "unavailable"),
        [QueryProcessor.Effect.ensureIndex, QueryProcessor.Effect.embedCall "hi"]) ∧
    (QueryProcessor.handler QueryProcessor.defaultEnv stubRemote
        ⟨some "POST", some (Json.obj [("question", Json.str "hi")])⟩ =
      (QueryProcessor.response QueryProcessor.defaultEnv 500
          (Json.obj [("error", Json.str "internal_error")]),
        [QueryProcessor.Effect.ensureIndex, QueryProcessor.Effect.embedCall "hi"]) ∧
    (QueryProcessor.handler QueryProcessor.defaultEnv stubRemote
        ⟨some "POST", some (Json.obj [("question", Json.str "hi")])⟩).1.statusCode = 500 ∧
    (QueryProcessor.handler QueryProcessor.defaultEnv stubRemote
        ⟨some "POST", some (Json.obj [("question", Json.str "hi")])⟩).1.body =
      "\x7b\"error\": \"internal_error\"\x7d") :=
  ⟨by decide, rfl,
    unhandled_error_500 QueryProcessor.defaultEnv stubRemote
      ⟨some "POST", some (Json.obj [("question", Json.str "hi")])⟩
      (.clientError "unavailable")
      [QueryProcessor.Effect.ensureIndex, QueryProcessor.Effect.embedCall "hi"]
      (by decide) rfl⟩

/-- A key is absent from an association list exactly when the
corresponding `any` test fails. -/
theorem lookupField_none_iff (fs : List (String × Json)) (k : String) :
    lookupField fs k = none ↔ fs.any (fun kv => kv.1 == k) = false := by
  induction fs with
  | nil => simp [lookupField]
  | cons kv rest ih =>
    rcases kv with ⟨k1, v1⟩
    unfold lookupField
    by_cases h : k1 = k
    · simp [h]
    · simp [h, ih]

/-- C4 (amended): a dict-shaped response presenting neither embedding
shape makes the ingestion embed raise the distinct malformed-response
RuntimeError whose message is the fixed prefix followed by the dumped
payload truncated to 1000 characters, which bounds the message length;
the model identifier is not part of the message (see the
counterexample).  The failure is not raised for every malformed
response: a non-iterable payload — a bare number, boolean or null —
raises a TypeError at the `"embedding" in payload` containment check
instead. -/
theorem malformed_embed_message (fs : List (String × Json))
    (hd : directEmbedding (Json.obj fs) = none)
    (hn : nestedEmbedding (Json.obj fs) = none) :
    (DocIngestor.embedParse (Json.obj fs) =
      .error (.runtimeError (DocIngestor.malformedPrefix ++ strTake (jsonDumps (Json.obj fs)) 1000)) ∧
    (DocIngestor.malformedPrefix ++ strTake (jsonDumps (Json.obj fs)) 1000).length ≤
      DocIngestor.malformedPrefix.length + 1000) ∧
    (∀ n, DocIngestor.embedParse (Json.num n) = .error .typeError) ∧
    (∀ b, DocIngestor.embedParse (Json.bool b) = .error .typeError) ∧
    DocIngestor.embedParse Json.null = .error .typeError := by
  refine ⟨⟨?_, ?_⟩, fun n => rfl, fun b => rfl, rfl⟩
  · have hdany : fs.any (fun kv => kv.1 == "embedding") = false :=
      (lookupField_none_iff fs "embedding").mp hd
    have hscan : DocIngestor.outputsScan (Json.obj fs) = .ok none := by
      unfold DocIngestor.outputsScan
      cases hout : lookupField fs "outputs" with
      | none =>
        have : fs.any (fun kv => kv.1 == "outputs") = false :=
          (lookupField_none_iff fs "outputs").mp hout
        simp [inCheck, this]
      | some v =>
        have hany : fs.any (fun kv => kv.1 == "outputs") = true := by
          cases ha : fs.any (fun kv => kv.1 == "outputs") with
          | true => rfl
          | false => rw [(lookupField_none_iff fs "outputs").mpr ha] at hout; exact Option.noConfusion hout
        have hget : getItem (Json.obj fs) "outputs" = .ok v := by
          show (match lookupField fs "outputs" with
            | some w => Except.ok w
            | none => Except.error (PyErr.keyError "outputs")) = Except.ok v
          rw [hout]
        rw [show inCheck (Json.obj fs) "outputs" = .ok true by simp [inCheck, hany]]
        rw [hget]
        cases v with
        | arr items =>
          have hn2 : (match lookupField fs "outputs" with
            | some (Json.arr its) => DocIngestor.firstOutputsEmbedding its
            | _ => none) = none := hn
          rw [hout] at hn2
          show Except.ok (DocIngestor.firstOutputsEmbedding items) = Except.ok none
          rw [show DocIngestor.firstOutputsEmbedding items = none from hn2]
        | null => rfl
        | bool b => rfl
        | num n => rfl
        | str s => rfl
        | obj gs => rfl
    unfold DocIngestor.embedParse
    rw [show inCheck (Json.obj fs) "embedding" = .ok false by simp [inCheck, hdany]]
    rw [hscan]
  · have h1 : (DocIngestor.malformedPrefix ++ strTake (jsonDumps (Json.obj fs)) 1000).length =
        DocIngestor.malformedPrefix.length + (strTake (jsonDumps (Json.obj fs)) 1000).length :=
      String.length_append _ _
    have h2 : (strTake (jsonDumps (Json.obj fs)) 1000).length ≤ 1000 := by
      show ((jsonDumps (Json.obj fs)).data.take 1000).length ≤ 1000
      rw [List.length_take]
      exact Nat.min_le_left _ _
    omega

/-- Witness for C4 at a concrete payload with neither shape. -/
theorem malformed_embed_message_witness :
    directEmbedding (Json.obj [("foo", Json.num 1)]) = none ∧
    nestedEmbedding (Json.obj [("foo", Json.num 1)]) = none ∧
    ((DocIngestor.embedParse (Json.obj [("foo", Json.num 1)]) =
      .error (.runtimeError
        (DocIngestor.malformedPrefix ++ strTake (jsonDumps (Json.obj [("foo", Json.num 1)])) 1000)) ∧
    (DocIngestor.malformedPrefix ++ strTake (jsonDumps (Json.obj [("foo", Json.num 1)])) 1000).length ≤
      DocIngestor.malformedPrefix.length + 1000) ∧
    (∀ n, DocIngestor.embedParse (Json.num n) = .error .typeError) ∧
    (∀ b, DocIngestor.embedParse (Json.bool b) = .error .typeError) ∧
    DocIngestor.embedParse Json.null = .error .typeError) :=
  ⟨rfl, rfl, malformed_embed_message [("foo", Json.num 1)] rfl rfl⟩

/-- Counterexample to C4 as stated: at a concrete malformed dict payload
the raised message does not contain the model identifier (the default
`EMBED_MODEL_ID` in effect during the call); and a malformed non-dict
payload (a bare number, presenting neither shape) raises a TypeError,
which is not the distinct malformed-response RuntimeError at all. -/
theorem malformed_embed_message_cex :
    (DocIngestor.embedParse (Json.obj [("foo", Json.num 1)]) =
      .error (.runtimeError
        (DocIngestor.malformedPrefix ++ strTake (jsonDumps (Json.obj [("foo", Json.num 1)])) 1000)) ∧
    containsSubstr (DocIngestor.malformedPrefix ++ strTake (jsonDumps (Json.obj [("foo", Json.num 1)])) 1000)
      "amazon.titan-embed-text-v2:0" = false) ∧
    (directEmbedding (Json.num 7) = none ∧ nestedEmbedding (Json.num 7) = none ∧
      DocIngestor.embedParse (Json.num 7) = .error .typeError ∧
      ∀ m, PyErr.typeError ≠ PyErr.runtimeError m) :=
  ⟨⟨rfl, by decide⟩, ⟨rfl, rfl, rfl, fun m h => PyErr.noConfusion h⟩⟩

/-- A successful answer parse returns exactly the extracted value. -/
theorem parseAnswer_ok_extract (mid : String) (payload : Json) (a : Json)
    (h : QueryProcessor.parseAnswer mid payload = .ok a) :
    QueryProcessor.extractAnswer mid payload = .ok (some a) := by
  unfold QueryProcessor.parseAnswer at h
  cases hx : QueryProcessor.extractAnswer mid payload with
  | error e => rw [hx] at h; exact Except.noConfusion h
  | ok o =>
    rw [hx] at h
    cases o with
    | none => exact Except.noConfusion h
    | some v =>
      cases v with
      | str t =>
        have h2 : (Except.ok (Json.str t) : Except PyErr Json) = Except.ok a := h
        injection h2 with h3
        rw [h3]
      | arr xs =>
        have h2 : (Except.ok (Json.arr xs) : Except PyErr Json) = Except.ok a := h
        injection h2 with h3
        rw [h3]
      | obj fs =>
        have h2 : (Except.ok (Json.obj fs) : Except PyErr Json) = Except.ok a := h
        injection h2 with h3
        rw [h3]
      | null => exact Except.noConfusion h
      | bool b => exact Except.noConfusion h
      | num n => exact Except.noConfusion h

/-- Soundness of the answer extraction: a string can only come out of
one of the two recognized response shapes. -/
theorem extractAnswer_some_str (mid : String) (payload : Json) (s : String)
    (h : QueryProcessor.extractAnswer mid payload = .ok (some (Json.str s))) :
    anthropicShapeText payload = some s ∨ nestedShapeText payload = some s := by
  unfold QueryProcessor.extractAnswer at h
  by_cases hm : containsSubstr (pyLower mid) "anthropic" = true
  · rw [if_pos hm] at h
    left
    cases payload with
    | null => simp [dictGet] at h
    | bool b => simp [dictGet] at h
    | num n => simp [dictGet] at h
    | str t => simp [dictGet] at h
    | arr xs => simp [dictGet] at h
    | obj fs =>
      simp only [dictGet] at h
      cases hc : lookupField fs "content" with
      | none => rw [hc] at h; simp [pyTruthy] at h
      | some cv =>
        rw [hc] at h
        cases cv with
        | null => simp [pyTruthy] at h
        | bool b => cases b <;> simp [pyTruthy] at h
        | num n => cases hb : pyTruthy (Json.num n) <;> simp [hb] at h
        | str t => cases hb : pyTruthy (Json.str t) <;> simp [hb] at h
        | obj gs => cases hb : pyTruthy (Json.obj gs) <;> simp [hb] at h
        | arr xs =>
          cases xs with
          | nil => simp [pyTruthy] at h
          | cons first rest =>
            simp only [pyTruthy, List.isEmpty_cons, Bool.not_false, if_true,
              Option.getD_some] at h
            cases first with
            | null => simp [inCheck] at h
            | bool b => simp [inCheck] at h
            | num n => simp [inCheck] at h
            | str t =>
              cases hb : containsSubstr t "text" <;> simp [inCheck, hb, getItem] at h
            | arr ys =>
              cases hb : ys.any (fun v => jsonBeq v (Json.str "text")) <;>
                simp [inCheck, hb, getItem] at h
            | obj bf =>
              cases hb : bf.any (fun kv => kv.1 == "text") with
              | false => simp [inCheck, hb] at h
              | true =>
                cases hlk : lookupField bf "text" with
                | none => simp [inCheck, hb, getItem, hlk] at h
                | some a =>
                  simp only [inCheck, hb, getItem, hlk] at h
                  cases a with
                  | str t =>
                    simp only [Except.ok.injEq, Option.some.injEq, Json.str.injEq] at h
                    subst h
                    simp [anthropicShapeText, hc, hlk]
                  | null => simp at h
                  | bool b => simp at h
                  | num n => simp at h
                  | arr ys => simp at h
                  | obj o2 => simp at h
  · rw [if_neg hm] at h
    right
    cases payload with
    | null => simp [dictGet] at h
    | bool b => simp [dictGet] at h
    | num n => simp [dictGet] at h
    | str t => simp [dictGet] at h
    | arr xs => simp [dictGet] at h
    | obj fs =>
      simp only [dictGet] at h
      cases ho : lookupField fs "output" with
      | none => rw [ho] at h; simp [pyTruthy] at h
      | some ov =>
        rw [ho] at h
        cases ov with
        | null => simp [pyTruthy] at h
        | bool b => cases b <;> simp [pyTruthy] at h
        | num n => cases hb : pyTruthy (Json.num n) <;> simp [hb] at h
        | str t => cases hb : pyTruthy (Json.str t) <;> simp [hb] at h
        | obj gs => cases hb : pyTruthy (Json.obj gs) <;> simp [hb] at h
        | arr os =>
          cases os with
          | nil => simp [pyTruthy] at h
          | cons o0 orest =>
            simp only [pyTruthy, List.isEmpty_cons, Bool.not_false, if_true,
              Option.getD_some] at h
            cases o0 with
            | null => simp [dictGet] at h
            | bool b => simp [dictGet] at h
            | num n => simp [dictGet] at h
            | str t => simp [dictGet] at h
            | arr ys => simp [dictGet] at h
            | obj og =>
              simp only [dictGet] at h
              cases hc2 : lookupField og "content" with
              | none => rw [hc2] at h; simp [pyTruthy] at h
              | some cv2 =>
                rw [hc2] at h
                cases cv2 with
                | null => simp [pyTruthy] at h
                | bool b => cases b <;> simp [pyTruthy] at h
                | num n => cases hb : pyTruthy (Json.num n) <;> simp [hb] at h
                | str t => cases hb : pyTruthy (Json.str t) <;> simp [hb] at h
                | obj gs => cases hb : pyTruthy (Json.obj gs) <;> simp [hb] at h
                | arr cs =>
                  cases cs with
                  | nil => simp [pyTruthy] at h
                  | cons c0 crest =>
                    simp only [pyTruthy, List.isEmpty_cons, Bool.not_false, if_true,
                      Option.getD_some] at h
                    cases c0 with
                    | null => simp [dictGet] at h
                    | bool b => simp [dictGet] at h
                    | num n => simp [dictGet] at h
                    | str t => simp [dictGet] at h
                    | arr ys => simp [dictGet] at h
                    | obj cg =>
                      simp only [dictGet] at h
                      cases hlk2 : lookupField cg "text" with
                      | none => rw [hlk2] at h; simp at h
                      | some t =>
                        rw [hlk2] at h
                        simp only [Option.getD_some] at h
                        cases t with
                        | str t2 =>
                          simp only [Except.ok.injEq, Option.some.injEq,
                            Json.str.injEq] at h
                          subst h
                          simp [nestedShapeText, ho, hc2, hlk2]
                        | null => simp at h
                        | bool b => simp at h
                        | num n => simp at h
                        | arr ys => simp at h
                        | obj o2 => simp at h

/-- C7 (amended): a generative-model response with no extractable text
does not always raise.  When the extraction guards find nothing, or the
extracted value is `None`, the explicit
`ValueError("Unexpected model response format")` is raised; a numeric
(or boolean) extracted value fails at the `len(answer)` log line with a
`TypeError`; but a non-string extracted value that supports `len()`,
such as a list, is returned as the answer with no failure at all.  A
string answer, in particular an empty one, can only come out of one of
the two recognized response shapes. -/
theorem no_extractable_text_raises (mid : String) (payload : Json) :
    (QueryProcessor.extractAnswer mid payload = .ok none →
      QueryProcessor.parseAnswer mid payload =
        .error (.valueError "Unexpected model response format")) ∧
    (QueryProcessor.extractAnswer mid payload = .ok (some Json.null) →
      QueryProcessor.parseAnswer mid payload =
        .error (.valueError "Unexpected model response format")) ∧
    (∀ n, QueryProcessor.extractAnswer mid payload = .ok (some (Json.num n)) →
      QueryProcessor.parseAnswer mid payload = .error .typeError) ∧
    (∀ xs, QueryProcessor.extractAnswer mid payload = .ok (some (Json.arr xs)) →
      QueryProcessor.parseAnswer mid payload = .ok (Json.arr xs)) ∧
    (∀ s, QueryProcessor.parseAnswer mid payload = .ok (Json.str s) →
      anthropicShapeText payload = some s ∨ nestedShapeText payload = some s) := by
  refine ⟨?_, ?_, ?_, ?_, ?_⟩
  · intro h
    unfold QueryProcessor.parseAnswer
    rw [h]
  · intro h
    unfold QueryProcessor.parseAnswer
    rw [h]
  · intro n h
    unfold QueryProcessor.parseAnswer
    rw [h]
  · intro xs h
    unfold QueryProcessor.parseAnswer
    rw [h]
  · intro s h
    exact extractAnswer_some_str mid payload s (parseAnswer_ok_extract mid payload (Json.str s) h)

/-- Witness for C7 at a concrete shapeless payload: the extraction finds
nothing and the explicit ValueError is raised. -/
theorem no_extractable_text_raises_witness :
    QueryProcessor.extractAnswer "anthropic.claude-3-5-sonnet-20241022-v2:0"
      (Json.obj [("foo", Json.null)]) = .ok none ∧
    QueryProcessor.parseAnswer "anthropic.claude-3-5-sonnet-20241022-v2:0"
      (Json.obj [("foo", Json.null)]) =
        .error (.valueError "Unexpected model response format") :=
  ⟨rfl, (no_extractable_text_raises "anthropic.claude-3-5-sonnet-20241022-v2:0"
    (Json.obj [("foo", Json.null)])).1 rfl⟩

/-- Counterexample to C7 as stated: a concrete response from which
neither shape extracts any text — its first content entry carries a list
under `text` — makes the answer operation return that list with no
failure raised, because `len()` succeeds on lists; the handler even
serves that list inside an HTTP 200 body; and another no-text response
(a bare string first content entry) raises a TypeError rather than the
explicit "unexpected response format" failure the claim promises. -/
theorem no_extractable_text_raises_cex :
    (anthropicShapeText (Json.obj [("content",
        Json.arr [Json.obj [("text", Json.arr [Json.str "x"])]])]) = none ∧
      nestedShapeText (Json.obj [("content",
        Json.arr [Json.obj [("text", Json.arr [Json.str "x"])]])]) = none ∧
      QueryProcessor.parseAnswer "anthropic.claude-3-5-sonnet-20241022-v2:0"
        (Json.obj [("content", Json.arr [Json.obj [("text", Json.arr [Json.str "x"])]])]) =
          .ok (Json.arr [Json.str "x"]) ∧
      (QueryProcessor.handler QueryProcessor.defaultEnv listAnswerRemote
        ⟨some "POST", some (Json.obj [("question", Json.str "hi")])⟩).1.statusCode = 200) ∧
    (anthropicShapeText (Json.obj [("content", Json.arr [Json.str "text"])]) = none ∧
      nestedShapeText (Json.obj [("content", Json.arr [Json.str "text"])]) = none ∧
      QueryProcessor.parseAnswer "anthropic.claude-3-5-sonnet-20241022-v2:0"
        (Json.obj [("content", Json.arr [Json.str "text"])]) = .error .typeError ∧
      PyErr.typeError ≠ PyErr.valueError "Unexpected model response format") :=
  ⟨⟨rfl, rfl, rfl, by decide⟩, ⟨rfl, rfl, rfl, by decide⟩⟩

/-- Invariant of the ingestion chunk loop: when every embed succeeds,
the loop performs one write per chunk in order, with consecutive chunk
ids from the loop counter, the given document id, and the metadata
passed through unchanged. -/
theorem ingestChunks_spec (embedF : String → Except PyErr Json) (docId : String)
    (meta : List (String × Json)) :
    ∀ (chunks : List String) (i : Nat), (∀ c ∈ chunks, ∃ v, embedF c = .ok v) →
      (DocIngestor.ingestChunks embedF docId meta i chunks).2 = none ∧
      (DocIngestor.ingestChunks embedF docId meta i chunks).1.map
          (fun w => w.chunk_id) = List.range' i chunks.length ∧
      (DocIngestor.ingestChunks embedF docId meta i chunks).1.map
          (fun w => w.chunk_text_value) = chunks ∧
      ∀ w ∈ (DocIngestor.ingestChunks embedF docId meta i chunks).1,
        w.doc_id = docId ∧ w.meta = meta := by
  intro chunks
  induction chunks with
  | nil =>
    intro i h
    refine ⟨rfl, rfl, rfl, ?_⟩
    intro w hw
    exact absurd hw (List.not_mem_nil w)
  | cons c rest ih =>
    intro i h
    obtain ⟨v, hv⟩ := h c (List.mem_cons_self c rest)
    obtain ⟨h1, h2, h3, h4⟩ := ih (i + 1) (fun d hd => h d (List.mem_cons_of_mem c hd))
    unfold DocIngestor.ingestChunks
    rw [hv]
    refine ⟨h1, ?_, ?_, ?_⟩
    · show DocIngestor.IndexWrite.chunk_id ⟨docId, i, c, v, meta⟩ ::
        (DocIngestor.ingestChunks embedF docId meta (i + 1) rest).1.map
          (fun w => w.chunk_id) = List.range' i (rest.length + 1)
      rw [List.range'_succ, h2]
    · show DocIngestor.IndexWrite.chunk_text_value ⟨docId, i, c, v, meta⟩ ::
        (DocIngestor.ingestChunks embedF docId meta (i + 1) rest).1.map
          (fun w => w.chunk_text_value) = c :: rest
      rw [h3]
    · intro w hw
      have hw1 : w ∈ (⟨docId, i, c, v, meta⟩ : DocIngestor.IndexWrite) ::
          (DocIngestor.ingestChunks embedF docId meta (i + 1) rest).1 := hw
      rcases List.mem_cons.mp hw1 with rfl | hw2
      · exact ⟨rfl, rfl⟩
      · exact h4 w hw2

/-- C3: ingesting one document whose text chunks into N chunks, with
every embedding succeeding, performs exactly N index writes, in order,
with chunk ids 0 through N-1 strictly increasing, the key-derived
document id on every write, and the document metadata propagated
unchanged into every write; no error is raised. -/
theorem ingestion_write_sequence (md5hex : String → String)
    (embedF : String → Except PyErr Json) (key text : String)
    (h : ∀ c ∈ chunk_text text 1200, ∃ v, embedF c = .ok v) :
    (DocIngestor.processRecord md5hex embedF key text).2 = none ∧
    (DocIngestor.processRecord md5hex embedF key text).1.length =
      (chunk_text text 1200).length ∧
    (DocIngestor.processRecord md5hex embedF key text).1.map (fun w => w.chunk_id) =
      List.range (chunk_text text 1200).length ∧
    (DocIngestor.processRecord md5hex embedF key text).1.map (fun w => w.chunk_text_value) =
      chunk_text text 1200 ∧
    ∀ w ∈ (DocIngestor.processRecord md5hex embedF key text).1,
      w.doc_id = md5hex key ∧
      w.meta = [("source", Json.str "s3"), ("s3_key", Json.str key)] := by
  obtain ⟨h1, h2, h3, h4⟩ := ingestChunks_spec embedF (md5hex key)
    [("source", Json.str "s3"), ("s3_key", Json.str key)] (chunk_text text 1200) 0 h
  refine ⟨h1, ?_, ?_, h3, h4⟩
  · have := congrArg List.length h3
    simpa using this
  · rw [List.range_eq_range']
    exact h2

/-- Witness for C3 at a concrete single-chunk document. -/
theorem ingestion_write_sequence_witness :
    (∀ c ∈ chunk_text "hello world" 1200, ∃ v, embedStub c = .ok v) ∧
    ((DocIngestor.processRecord md5Stub embedStub "k.txt" "hello world").2 = none ∧
    (DocIngestor.processRecord md5Stub embedStub "k.txt" "hello world").1.length =
      (chunk_text "hello world" 1200).length ∧
    (DocIngestor.processRecord md5Stub embedStub "k.txt" "hello world").1.map
        (fun w => w.chunk_id) = List.range (chunk_text "hello world" 1200).length ∧
    (DocIngestor.processRecord md5Stub embedStub "k.txt" "hello world").1.map
        (fun w => w.chunk_text_value) = chunk_text "hello world" 1200 ∧
    ∀ w ∈ (DocIngestor.processRecord md5Stub embedStub "k.txt" "hello world").1,
      w.doc_id = md5Stub "k.txt" ∧
      w.meta = [("source", Json.str "s3"), ("s3_key", Json.str "k.txt")]) :=
  ⟨fun c _ => ⟨Json.arr [], rfl⟩,
    ingestion_write_sequence md5Stub embedStub "k.txt" "hello world"
      (fun c _ => ⟨Json.arr [], rfl⟩)⟩

/-!
Lemma suite for the chunker claim: properties of the greedy line fill,
the long-word break, the whitespace drops, the run splitting, and the
word sequence, assembled into the wrap-loop invariants.
-/

/-- Total length distributes over chunk-list concatenation. -/
theorem totalLen_append (a b : List (List Char)) :
    totalLen (a ++ b) = totalLen a + totalLen b := by
  unfold totalLen
  rw [List.map_append, List.sum_append]

/-- Total length of a cons. -/
theorem totalLen_cons (c : List Char) (rest : List (List Char)) :
    totalLen (c :: rest) = c.length + totalLen rest := by
  unfold totalLen
  rw [List.map_cons, List.sum_cons]

/-- The greedy fill splits the chunk list into the line part and the
remainder. -/
theorem greedyPop_append (width : Nat) :
    ∀ (chunks : List (List Char)) (curLen : Nat),
      (greedyPop width curLen chunks).1 ++ (greedyPop width curLen chunks).2.2 = chunks := by
  intro chunks
  induction chunks with
  | nil => intro curLen; rfl
  | cons c rest ih =>
    intro curLen
    unfold greedyPop
    by_cases h : curLen + c.length ≤ width
    · rw [if_pos h]
      show c :: ((greedyPop width (curLen + c.length) rest).1 ++
        (greedyPop width (curLen + c.length) rest).2.2) = c :: rest
      rw [ih]
    · rw [if_neg h]
      rfl

/-- The greedy fill's running length is the initial length plus the
line's total length, and stays within the width whenever anything was
taken. -/
theorem greedyPop_spec (width : Nat) :
    ∀ (chunks : List (List Char)) (curLen : Nat),
      (greedyPop width curLen chunks).2.1 =
        curLen + totalLen (greedyPop width curLen chunks).1 ∧
      ((greedyPop width curLen chunks).1 ≠ [] →
        (greedyPop width curLen chunks).2.1 ≤ width) := by
  intro chunks
  induction chunks with
  | nil =>
    intro curLen
    refine ⟨?_, fun h => absurd rfl h⟩
    show curLen = curLen + totalLen []
    simp [totalLen]
  | cons c rest ih =>
    intro curLen
    unfold greedyPop
    by_cases h : curLen + c.length ≤ width
    · rw [if_pos h]
      obtain ⟨ih1, ih2⟩ := ih (curLen + c.length)
      constructor
      · show (greedyPop width (curLen + c.length) rest).2.1 =
          curLen + totalLen (c :: (greedyPop width (curLen + c.length) rest).1)
        rw [ih1, totalLen_cons]
        omega
      · intro _
        show (greedyPop width (curLen + c.length) rest).2.1 ≤ width
        by_cases hr : (greedyPop width (curLen + c.length) rest).1 = []
        · obtain ⟨ih1, _⟩ := ih (curLen + c.length)
          rw [ih1, hr]
          simpa [totalLen] using h
        · exact ih2 hr
    · rw [if_neg h]
      refine ⟨?_, fun hne => absurd rfl hne⟩
      show curLen = curLen + totalLen []
      simp [totalLen]

/-- When the greedy fill takes nothing, the head chunk did not fit. -/
theorem greedyPop_nil_head (width curLen : Nat) (c : List Char) (rest : List (List Char))
    (h : (greedyPop width curLen (c :: rest)).1 = []) : width < curLen + c.length := by
  by_contra hc
  push_neg at hc
  unfold greedyPop at h
  rw [if_pos hc] at h
  have h2 : c :: (greedyPop width (curLen + c.length) rest).1 = [] := h
  exact List.noConfusion h2

/-- A found hyphen position lies below both the stop bound and the chunk
length. -/
theorem rfindHyphen_lt (chunk : List Char) (stop : Nat) (h : Nat)
    (hh : rfindHyphen chunk stop = some h) : h < stop ∧ h < chunk.length := by
  unfold rfindHyphen at hh
  obtain ⟨ys, hys⟩ := List.getLast?_eq_some_iff.mp hh
  have hmem : h ∈ ((chunk.take stop).enum.filter (fun p => p.2 == Char.ofNat 45)).map
      (fun p => p.1) := by
    rw [hys]
    exact List.mem_append_right ys (List.mem_singleton.mpr rfl)
  obtain ⟨p, hp, hp1⟩ := List.mem_map.mp hmem
  have hpe : p ∈ (chunk.take stop).enum := List.mem_of_mem_filter hp
  have hget : (chunk.take stop).get? p.1 = some p.2 := List.mem_enum_iff_get?.mp hpe
  have hlt : p.1 < (chunk.take stop).length := by
    by_contra hge
    push_neg at hge
    rw [List.get?_eq_none.mpr hge] at hget
    exact Option.noConfusion hget
  rw [List.length_take] at hlt
  subst hp1
  exact ⟨lt_of_lt_of_le hlt (Nat.min_le_left _ _),
    lt_of_lt_of_le hlt (Nat.min_le_right _ _)⟩

/-- A whitespace-only chunk holds no hyphen to find. -/
theorem rfindHyphen_ws (chunk : List Char) (stop : Nat) (hws : isAllWs chunk = true) :
    rfindHyphen chunk stop = none := by
  unfold rfindHyphen
  have hfil : (chunk.take stop).enum.filter (fun p => p.2 == Char.ofNat 45) = [] := by
    rw [List.filter_eq_nil]
    intro p hp
    have hget : (chunk.take stop).get? p.1 = some p.2 := List.mem_enum_iff_get?.mp hp
    have hmem : p.2 ∈ chunk.take stop := List.get?_mem hget
    have hmem2 : p.2 ∈ chunk := List.mem_of_mem_take hmem
    have hwsp : pyWsChar p.2 = true := List.all_eq_true.mp hws p.2 hmem2
    intro heq
    rw [beq_iff_eq] at heq
    rw [heq] at hwsp
    simp [pyWsChar] at hwsp
  rw [hfil]
  rfl

/-- A hyphen break position lies strictly below the space left. -/
theorem hyphenEnd_lt_stop (chunk : List Char) (stop h : Nat)
    (hh : hyphenEnd chunk stop = some h) : h < stop := by
  unfold hyphenEnd at hh
  cases hrf : rfindHyphen chunk stop with
  | none => rw [hrf] at hh; exact Option.noConfusion hh
  | some h2 =>
    rw [hrf] at hh
    have hh2 : (if 0 < h2 then
        (if ((chunk.take h2).any fun x => !(x == Char.ofNat 45)) = true then some h2 else none)
        else none) = some h := hh
    split at hh2
    · split at hh2
      · have heq : h2 = h := by injection hh2
        subst heq
        exact (rfindHyphen_lt chunk stop h2 hrf).1
      · exact Option.noConfusion hh2
    · exact Option.noConfusion hh2

/-- The long-word break splits the chunk into a take and a drop at one
position: the piece stays within the remaining space, the remainder is
nonempty, and on an empty line at positive width at least one character
is taken. -/
theorem handleLongWord_spec (width curLen : Nat) (chunk : List Char)
    (hlen : width < chunk.length) :
    (handleLongWord width curLen chunk).1 ++ (handleLongWord width curLen chunk).2 = chunk ∧
    (handleLongWord width curLen chunk).1.length ≤ width - curLen ∧
    (handleLongWord width curLen chunk).2 ≠ [] ∧
    (0 < width → curLen = 0 → 1 ≤ (handleLongWord width curLen chunk).1.length) ∧
    (∃ e, handleLongWord width curLen chunk = (chunk.take e, chunk.drop e)) := by
  have hsl : width - curLen < chunk.length := lt_of_le_of_lt (Nat.sub_le width curLen) hlen
  have hend : ∃ e, (handleLongWord width curLen chunk) = (chunk.take e, chunk.drop e) ∧
      e ≤ width - curLen ∧ (curLen = 0 → 0 < width → 1 ≤ e) := by
    cases hhe : hyphenEnd chunk (width - curLen) with
    | none =>
      refine ⟨width - curLen, ?_, le_refl _, fun hc hw => by omega⟩
      unfold handleLongWord
      simp [hsl, hhe]
    | some h =>
      refine ⟨h + 1, ?_, hyphenEnd_lt_stop chunk (width - curLen) h hhe, fun _ _ => by omega⟩
      unfold handleLongWord
      simp [hsl, hhe]
  obtain ⟨e, heq, hle, hpos⟩ := hend
  rw [heq]
  have helt : e < chunk.length := lt_of_le_of_lt hle hsl
  refine ⟨List.take_append_drop e chunk, ?_, ?_, ?_, ⟨e, rfl⟩⟩
  · rw [List.length_take]
    exact le_trans (Nat.min_le_left _ _) hle
  · intro hd
    have hlen2 := congrArg List.length hd
    rw [List.length_drop] at hlen2
    simp only [List.length_nil] at hlen2
    omega
  · intro hw hc0
    rw [List.length_take, Nat.le_min]
    have h1 := hpos hc0 hw
    omega

/-- The trailing-whitespace drop either does nothing or removes exactly
one trailing all-whitespace chunk. -/
theorem dropLastWs_cases (L : List (List Char)) :
    dropLastWs L = L ∨
    ∃ ys l, L = ys ++ [l] ∧ isAllWs l = true ∧ dropLastWs L = ys := by
  unfold dropLastWs
  cases hg : L.getLast? with
  | none => exact Or.inl rfl
  | some l =>
    by_cases hws : isAllWs l = true
    · right
      obtain ⟨ys, hys⟩ := List.getLast?_eq_some_iff.mp hg
      refine ⟨ys, l, hys, hws, ?_⟩
      show (if isAllWs l = true then L.dropLast else L) = ys
      rw [if_pos hws, hys, List.dropLast_concat]
    · left
      show (if isAllWs l = true then L.dropLast else L) = L
      rw [if_neg hws]

/-- Membership survives the trailing-whitespace drop. -/
theorem dropLastWs_subset (L : List (List Char)) (x : List Char)
    (hx : x ∈ dropLastWs L) : x ∈ L := by
  rcases dropLastWs_cases L with h | ⟨ys, l, hL, _, hd⟩
  · rw [h] at hx; exact hx
  · rw [hd] at hx
    rw [hL]
    exact List.mem_append_left [l] hx

/-- The word chunks are unchanged by the trailing-whitespace drop. -/
theorem dropLastWs_words (L : List (List Char)) :
    wordsOfChunks (dropLastWs L) = wordsOfChunks L := by
  rcases dropLastWs_cases L with h | ⟨ys, l, hL, hws, hd⟩
  · rw [h]
  · rw [hd, hL]
    unfold wordsOfChunks
    rw [List.filter_append]
    simp [hws]

/-- The line total can only shrink under the trailing-whitespace drop. -/
theorem dropLastWs_totalLen (L : List (List Char)) :
    totalLen (dropLastWs L) ≤ totalLen L := by
  rcases dropLastWs_cases L with h | ⟨ys, l, hL, _, hd⟩
  · rw [h]
  · rw [hd, hL, totalLen_append]
    omega

/-- An empty result of the trailing-whitespace drop means the line was
empty or a single whitespace chunk. -/
theorem dropLastWs_eq_nil (L : List (List Char)) (h : dropLastWs L = []) :
    L = [] ∨ ∃ x, L = [x] ∧ isAllWs x = true := by
  rcases dropLastWs_cases L with hc | ⟨ys, l, hL, hws, hd⟩
  · rw [hc] at h; exact Or.inl h
  · rw [hd] at h
    subst h
    exact Or.inr ⟨l, by simpa using hL, hws⟩

/-- The adjacency invariant survives the trailing-whitespace drop. -/
theorem dropLastWs_chain (R : List Char → List Char → Prop) (L : List (List Char))
    (h : List.Chain' R L) : List.Chain' R (dropLastWs L) := by
  rcases dropLastWs_cases L with hc | ⟨ys, l, hL, _, hd⟩
  · rw [hc]; exact h
  · rw [hd]
    rw [hL] at h
    exact (List.chain'_append.mp h).1

/-- A nonempty single-class chunk's whitespace test equals its class. -/
theorem isAllWs_of_class (r : List Char) (b : Bool) (hne : r ≠ [])
    (h : ∀ x ∈ r, pyWsChar x = b) : isAllWs r = b := by
  cases b
  · obtain ⟨x, hx⟩ := List.exists_mem_of_ne_nil r hne
    unfold isAllWs
    cases ha : r.all pyWsChar
    · rfl
    · have := List.all_eq_true.mp ha x hx
      rw [h x hx] at this
      exact Bool.noConfusion this
  · unfold isAllWs
    rw [List.all_eq_true]
    exact h

/-- Full characterization of the run-splitting accumulator: the runs
flatten back, each run is nonempty and pure, the run classes alternate,
and the first run carries the accumulator's class. -/
theorem splitRunsGo_spec (rest : List Char) :
    ∀ (b : Bool) (cur : List Char), cur ≠ [] → (∀ x ∈ cur, pyWsChar x = b) →
      (splitRunsGo cur b rest).flatten = cur.reverse ++ rest ∧
      splitRunsGo cur b rest ≠ [] ∧
      (∀ r ∈ splitRunsGo cur b rest, r ≠ [] ∧ ∀ x ∈ r, pyWsChar x = isAllWs r) ∧
      List.Chain' (fun a d => isAllWs a ≠ isAllWs d) (splitRunsGo cur b rest) ∧
      (∀ hd tl, splitRunsGo cur b rest = hd :: tl → isAllWs hd = b) := by
  induction rest with
  | nil =>
    intro b cur hne hcl
    have hrcl : ∀ x ∈ cur.reverse, pyWsChar x = b := by
      intro x hx
      exact hcl x (List.mem_reverse.mp hx)
    have hrne : cur.reverse ≠ [] := by
      intro hrev
      exact hne (by simpa using congrArg List.reverse hrev)
    have hcls : isAllWs cur.reverse = b := isAllWs_of_class _ b hrne hrcl
    have hstep : splitRunsGo cur b [] = [cur.reverse] := rfl
    rw [hstep]
    refine ⟨by simp, by simp, ?_, by simp, ?_⟩
    · intro r hr
      rw [List.mem_singleton.mp hr]
      exact ⟨hrne, by rw [hcls]; exact hrcl⟩
    · intro hd tl heq
      injection heq with h1 h2
      rw [← h1]
      exact hcls
  | cons c rest2 ih =>
    intro b cur hne hcl
    have hstep : splitRunsGo cur b (c :: rest2) =
        if pyWsChar c = b then splitRunsGo (c :: cur) b rest2
        else cur.reverse :: splitRunsGo [c] (pyWsChar c) rest2 := rfl
    rw [hstep]
    by_cases hcb : pyWsChar c = b
    · rw [if_pos hcb]
      have hcl2 : ∀ x ∈ c :: cur, pyWsChar x = b := by
        intro x hx
        rcases List.mem_cons.mp hx with rfl | hx2
        · exact hcb
        · exact hcl x hx2
      obtain ⟨f1, f2, f3, f4, f5⟩ := ih b (c :: cur) (by simp) hcl2
      refine ⟨?_, f2, f3, f4, f5⟩
      rw [f1]
      simp
    · rw [if_neg hcb]
      have hrcl : ∀ x ∈ cur.reverse, pyWsChar x = b := fun x hx =>
        hcl x (List.mem_reverse.mp hx)
      have hrne : cur.reverse ≠ [] := by
        intro hrev
        exact hne (by simpa using congrArg List.reverse hrev)
      have hcls : isAllWs cur.reverse = b := isAllWs_of_class _ b hrne hrcl
      obtain ⟨f1, f2, f3, f4, f5⟩ := ih (pyWsChar c) [c] (by simp) (by simp)
      refine ⟨?_, by simp, ?_, ?_, ?_⟩
      · rw [List.flatten_cons, f1]
        simp
      · intro r hr
        rcases List.mem_cons.mp hr with rfl | hr2
        · exact ⟨hrne, by rw [hcls]; exact hrcl⟩
        · exact f3 r hr2
      · cases hsp : splitRunsGo [c] (pyWsChar c) rest2 with
        | nil => exact absurd hsp f2
        | cons hd tl =>
          rw [List.chain'_cons]
          rw [hsp] at f4
          constructor
          · rw [hcls, f5 hd tl hsp]
            intro hbad
            exact hcb hbad.symm
          · exact f4
      · intro hd tl heq
        injection heq with h1 h2
        rw [← h1]
        exact hcls

/-- The runs of a character list flatten back to it, are pure, and
alternate in class (hence no two word runs are adjacent). -/
theorem splitRuns_spec (cs : List Char) :
    (splitRuns cs).flatten = cs ∧
    (∀ r ∈ splitRuns cs, r ≠ [] ∧ ∀ x ∈ r, pyWsChar x = isAllWs r) ∧
    List.Chain' (fun a d => isAllWs a = true ∨ isAllWs d = true) (splitRuns cs) := by
  cases cs with
  | nil => exact ⟨rfl, by simp [splitRuns], by simp [splitRuns]⟩
  | cons c rest =>
    obtain ⟨f1, _, f3, f4, _⟩ := splitRunsGo_spec rest (pyWsChar c) [c] (by simp) (by simp)
    have hsr : splitRuns (c :: rest) = splitRunsGo [c] (pyWsChar c) rest := rfl
    rw [hsr]
    refine ⟨by simpa using f1, f3, ?_⟩
    refine List.Chain'.imp ?_ f4
    intro a d had
    cases ha : isAllWs a
    · cases hd2 : isAllWs d
      · rw [ha, hd2] at had
        exact absurd rfl had
      · exact Or.inr rfl
    · exact Or.inl rfl

/-- Unfolding equation of the word scanner at a cons. -/
theorem wordsGo_cons (cur : List Char) (c : Char) (rest : List Char) :
    wordsGo cur (c :: rest) =
      if pyWsChar c then
        (if cur.isEmpty then wordsGo [] rest else cur.reverse :: wordsGo [] rest)
      else wordsGo (c :: cur) rest := rfl

/-- Unfolding equation of the word scanner at the end of input. -/
theorem wordsGo_nilarg (cur : List Char) :
    wordsGo cur [] = if cur.isEmpty then [] else [cur.reverse] := rfl

/-- The word scanner with a nonempty accumulator emits at least one
word. -/
theorem wordsGo_ne_nil (cs : List Char) :
    ∀ (acc : List Char), acc ≠ [] → wordsGo acc cs ≠ [] := by
  induction cs with
  | nil =>
    intro acc h
    rw [wordsGo_nilarg]
    simp [h]
  | cons c rest ih =>
    intro acc h
    rw [wordsGo_cons]
    by_cases hw : pyWsChar c = true
    · rw [if_pos hw, if_neg (by simp [h])]
      simp
    · rw [if_neg hw]
      exact ih (c :: acc) (by simp)

/-- A character list has no words exactly when it is all whitespace. -/
theorem wordsCore_nil_iff (cs : List Char) :
    wordsCore cs = [] ↔ ∀ x ∈ cs, pyWsChar x = true := by
  unfold wordsCore
  induction cs with
  | nil => simp [wordsGo_nilarg]
  | cons c rest ih =>
    rw [wordsGo_cons]
    by_cases hw : pyWsChar c = true
    · rw [if_pos hw]
      simp only [List.isEmpty_nil, if_true]
      constructor
      · intro hr x hx
        rcases List.mem_cons.mp hx with rfl | hx2
        · exact hw
        · exact ih.mp hr x hx2
      · intro hall
        exact ih.mpr (fun x hx => hall x (List.mem_cons_of_mem c hx))
    · rw [if_neg hw]
      constructor
      · intro hr
        exact absurd hr (wordsGo_ne_nil rest [c] (by simp))
      · intro hall
        exact absurd (hall c (List.mem_cons_self c rest)) hw

/-- A whitespace run in front of the input does not change the word
sequence. -/
theorem wordsGo_ws_lead (r cs : List Char) :
    (∀ x ∈ r, pyWsChar x = true) → wordsGo [] (r ++ cs) = wordsGo [] cs := by
  induction r with
  | nil => intro h; rfl
  | cons c r2 ih =>
    intro h
    have hc : pyWsChar c = true := h c (List.mem_cons_self c r2)
    show wordsGo [] (c :: (r2 ++ cs)) = _
    rw [wordsGo_cons, if_pos hc]
    simp only [List.isEmpty_nil, if_true]
    exact ih (fun x hx => h x (List.mem_cons_of_mem c hx))

/-- Scanning a non-whitespace run accumulates it reversed. -/
theorem wordsGo_accum (r : List Char) :
    ∀ (acc cs : List Char), (∀ x ∈ r, pyWsChar x = false) →
      wordsGo acc (r ++ cs) = wordsGo (r.reverse ++ acc) cs := by
  induction r with
  | nil => intro acc cs h; rfl
  | cons c r2 ih =>
    intro acc cs h
    have hc : pyWsChar c = false := h c (List.mem_cons_self c r2)
    show wordsGo acc (c :: (r2 ++ cs)) = _
    rw [wordsGo_cons, if_neg (by rw [hc]; exact Bool.false_ne_true)]
    rw [ih (c :: acc) cs (fun x hx => h x (List.mem_cons_of_mem c hx))]
    congr 1
    simp

/-- A word run followed by whitespace (or nothing) contributes exactly
itself to the word sequence. -/
theorem wordsCore_word_lead (r cs : List Char) (hne : r ≠ [])
    (hw : ∀ x ∈ r, pyWsChar x = false)
    (hcs : cs = [] ∨ ∃ d ds, cs = d :: ds ∧ pyWsChar d = true) :
    wordsCore (r ++ cs) = r :: wordsCore cs := by
  unfold wordsCore
  rw [wordsGo_accum r [] cs hw]
  have hacc : (r.reverse ++ []).isEmpty = false := by
    cases r with
    | nil => exact absurd rfl hne
    | cons a as => simp
  rcases hcs with rfl | ⟨d, ds, rfl, hd⟩
  · rw [wordsGo_nilarg, if_neg (by rw [hacc]; exact Bool.false_ne_true)]
    simp only [List.append_nil, List.reverse_reverse]
    rfl
  · rw [wordsGo_cons, if_pos hd, if_neg (by rw [hacc]; exact Bool.false_ne_true)]
    rw [wordsGo_cons, if_pos hd]
    simp only [List.isEmpty_nil, if_true, List.append_nil, List.reverse_reverse]

/-- The word sequence splits at a separating space. -/
theorem wordsGo_space (l : List Char) :
    ∀ (acc rest : List Char),
      wordsGo acc (l ++ ' ' :: rest) = wordsGo acc l ++ wordsGo [] rest := by
  induction l with
  | nil =>
    intro acc rest
    show wordsGo acc (' ' :: rest) = wordsGo acc [] ++ wordsGo [] rest
    rw [wordsGo_cons, wordsGo_nilarg, if_pos (show pyWsChar ' ' = true from by decide)]
    by_cases ha : acc.isEmpty = true
    · rw [if_pos ha, if_pos ha]
      simp
    · rw [if_neg ha, if_neg ha]
      simp
  | cons c l2 ih =>
    intro acc rest
    show wordsGo acc (c :: (l2 ++ ' ' :: rest)) = wordsGo acc (c :: l2) ++ wordsGo [] rest
    rw [wordsGo_cons, wordsGo_cons]
    by_cases hw : pyWsChar c = true
    · rw [if_pos hw, if_pos hw]
      by_cases ha : acc.isEmpty = true
      · rw [if_pos ha, if_pos ha, ih]
      · rw [if_neg ha, if_neg ha, ih]
        simp
    · rw [if_neg hw, if_neg hw]
      exact ih (c :: acc) rest

/-- The word sequence of a space-joined line list is the concatenation
of the per-line word sequences. -/
theorem wordsCore_joinSep (L : List (List Char)) :
    wordsCore (joinSepCore L) = (L.map wordsCore).flatten := by
  induction L with
  | nil => rfl
  | cons l rest ih =>
    cases rest with
    | nil => simp [joinSepCore]
    | cons m rest2 =>
      show wordsCore (l ++ ' ' :: joinSepCore (m :: rest2)) = _
      unfold wordsCore
      rw [wordsGo_space]
      have ih2 : wordsGo [] (joinSepCore (m :: rest2)) =
          ((m :: rest2).map wordsCore).flatten := ih
      rw [ih2]
      rfl

/-- The word sequence of a flattened pure chunk list with no two
adjacent word chunks is exactly its word chunks. -/
theorem wordsCore_flatten_pure (L : List (List Char)) :
    (∀ r ∈ L, r ≠ [] ∧ ∀ x ∈ r, pyWsChar x = isAllWs r) →
    List.Chain' (fun a d => isAllWs a = true ∨ isAllWs d = true) L →
    wordsCore L.flatten = wordsOfChunks L := by
  induction L with
  | nil => intro _ _; rfl
  | cons r rest ih =>
    intro hp hc
    obtain ⟨hne, hcl⟩ := hp r (List.mem_cons_self r rest)
    have hp2 : ∀ x ∈ rest, x ≠ [] ∧ ∀ y ∈ x, pyWsChar y = isAllWs x :=
      fun x hx => hp x (List.mem_cons_of_mem r hx)
    have hc2 : List.Chain' (fun a d => isAllWs a = true ∨ isAllWs d = true) rest := hc.tail
    rw [List.flatten_cons]
    by_cases hws : isAllWs r = true
    · unfold wordsCore
      rw [wordsGo_ws_lead r rest.flatten (fun x hx => by rw [hcl x hx, hws])]
      have := ih hp2 hc2
      unfold wordsCore at this
      rw [this]
      unfold wordsOfChunks
      rw [List.filter_cons]
      simp [hws]
    · have hwsf : isAllWs r = false := by
        cases hb : isAllWs r
        · rfl
        · exact absurd hb hws
      have hhead : rest.flatten = [] ∨
          ∃ d ds, rest.flatten = d :: ds ∧ pyWsChar d = true := by
        cases rest with
        | nil => exact Or.inl rfl
        | cons m rest2 =>
          have hrel : isAllWs r = true ∨ isAllWs m = true :=
            (List.chain'_cons.mp hc).1
          have hm : isAllWs m = true := by
            rcases hrel with h1 | h1
            · exact absurd h1 hws
            · exact h1
          obtain ⟨hmne, hmcl⟩ := hp m (by simp)
          cases m with
          | nil => exact absurd rfl hmne
          | cons d ds =>
            refine Or.inr ⟨d, ds ++ rest2.flatten, by simp, ?_⟩
            rw [hmcl d (List.mem_cons_self d ds), hm]
      rw [wordsCore_word_lead r rest.flatten hne
        (fun x hx => by rw [hcl x hx, hwsf]) hhead]
      rw [ih hp2 hc2]
      unfold wordsOfChunks
      rw [List.filter_cons]
      simp [hwsf]

/-- Replacing whitespace characters with spaces keeps the word
sequence. -/
theorem wordsGo_replace (cs : List Char) :
    ∀ (acc : List Char), wordsGo acc (cs.map replaceWsChar) = wordsGo acc cs := by
  induction cs with
  | nil => intro acc; rfl
  | cons c rest ih =>
    intro acc
    by_cases hw : pyWsChar c = true
    · have h2 : replaceWsChar c = ' ' := by
        unfold replaceWsChar
        rw [if_pos hw]
      show wordsGo acc (replaceWsChar c :: rest.map replaceWsChar) = wordsGo acc (c :: rest)
      rw [h2, wordsGo_cons, wordsGo_cons,
        if_pos (show pyWsChar ' ' = true from by decide), if_pos hw]
      by_cases ha : acc.isEmpty = true
      · rw [if_pos ha, if_pos ha, ih]
      · rw [if_neg ha, if_neg ha, ih]
    · have h2 : replaceWsChar c = c := by
        unfold replaceWsChar
        rw [if_neg hw]
      show wordsGo acc (replaceWsChar c :: rest.map replaceWsChar) = wordsGo acc (c :: rest)
      rw [h2, wordsGo_cons, wordsGo_cons, if_neg hw, if_neg hw]
      exact ih (c :: acc)

/-- Unfolding equation of tab expansion at a cons. -/
theorem expandTabsGo_cons (col : Nat) (c : Char) (rest : List Char) :
    expandTabsGo col (c :: rest) =
      if c = Char.ofNat 9 then
        List.replicate (8 - col % 8) ' ' ++ expandTabsGo (col + (8 - col % 8)) rest
      else if c = Char.ofNat 10 ∨ c = Char.ofNat 13 then c :: expandTabsGo 0 rest
      else c :: expandTabsGo (col + 1) rest := rfl

/-- Tab expansion keeps the word sequence. -/
theorem wordsGo_expand (cs : List Char) :
    ∀ (col : Nat) (acc : List Char), wordsGo acc (expandTabsGo col cs) = wordsGo acc cs := by
  induction cs with
  | nil => intro col acc; rfl
  | cons c rest ih =>
    intro col acc
    by_cases ht : c = Char.ofNat 9
    · subst ht
      have hexp : expandTabsGo col (Char.ofNat 9 :: rest) =
          List.replicate (8 - col % 8) ' ' ++ expandTabsGo (col + (8 - col % 8)) rest := by
        rw [expandTabsGo_cons, if_pos rfl]
      rw [hexp]
      cases hp : 8 - col % 8 with
      | zero => omega
      | succ k =>
        rw [hp] at hexp
        rw [List.replicate_succ, List.cons_append]
        rw [wordsGo_cons, if_pos (show pyWsChar ' ' = true from by decide)]
        rw [wordsGo_cons, if_pos (show pyWsChar (Char.ofNat 9) = true from by decide)]
        have hwsrep : ∀ x ∈ List.replicate k ' ', pyWsChar x = true := by
          intro x hx
          rw [List.eq_of_mem_replicate hx]
          decide
        by_cases ha : acc.isEmpty = true
        · rw [if_pos ha, if_pos ha, wordsGo_ws_lead _ _ hwsrep, ih]
        · rw [if_neg ha, if_neg ha, wordsGo_ws_lead _ _ hwsrep, ih]
    · by_cases hnl : c = Char.ofNat 10 ∨ c = Char.ofNat 13
      · have hexp : expandTabsGo col (c :: rest) = c :: expandTabsGo 0 rest := by
          rw [expandTabsGo_cons, if_neg ht, if_pos hnl]
        have hw : pyWsChar c = true := by
          rcases hnl with rfl | rfl <;> decide
        rw [hexp, wordsGo_cons, wordsGo_cons, if_pos hw, if_pos hw]
        by_cases ha : acc.isEmpty = true
        · rw [if_pos ha, if_pos ha, ih]
        · rw [if_neg ha, if_neg ha, ih]
      · have hexp : expandTabsGo col (c :: rest) = c :: expandTabsGo (col + 1) rest := by
          rw [expandTabsGo_cons, if_neg ht, if_neg hnl]
        rw [hexp, wordsGo_cons, wordsGo_cons]
        by_cases hw : pyWsChar c = true
        · rw [if_pos hw, if_pos hw]
          by_cases ha : acc.isEmpty = true
          · rw [if_pos ha, if_pos ha, ih]
          · rw [if_neg ha, if_neg ha, ih]
        · rw [if_neg hw, if_neg hw]
          exact ih (col + 1) (c :: acc)

/-- Whitespace munging keeps the word sequence. -/
theorem wordsCore_munge (cs : List Char) : wordsCore (munge cs) = wordsCore cs := by
  unfold munge wordsCore
  rw [wordsGo_replace, wordsGo_expand]

/-- The empty chunk counts as whitespace, as in Python. -/
theorem isAllWs_nil : isAllWs [] = true := rfl

/-- A chunk list's flattened length is its total length. -/
theorem totalLen_flatten (L : List (List Char)) : L.flatten.length = totalLen L := by
  induction L with
  | nil => rfl
  | cons c rest ih =>
    rw [List.flatten_cons, List.length_append, totalLen_cons, ih]

/-- The measure of the empty chunk list. -/
theorem chunksMeasure_nil : chunksMeasure [] = 0 := rfl

/-- The measure of a cons. -/
theorem chunksMeasure_cons (c : List Char) (rest : List (List Char)) :
    chunksMeasure (c :: rest) = 1 + c.length + chunksMeasure rest := by
  unfold chunksMeasure
  rw [totalLen_cons, List.length_cons]
  omega

/-- The measure is additive over appends. -/
theorem chunksMeasure_append (a b : List (List Char)) :
    chunksMeasure (a ++ b) = chunksMeasure a + chunksMeasure b := by
  unfold chunksMeasure
  rw [totalLen_append, List.length_append]
  omega

/-- A nonempty chunk list has positive measure. -/
theorem chunksMeasure_pos (L : List (List Char)) (h : L ≠ []) : 0 < chunksMeasure L := by
  cases L with
  | nil => exact absurd rfl h
  | cons c rest =>
    rw [chunksMeasure_cons]
    omega

/-- The empty chunk list is pure. -/
theorem pureChunks_nil : pureChunks [] :=
  ⟨fun r hr => absurd hr (List.not_mem_nil r), List.chain'_nil⟩

/-- Purity restricts to both halves of an append. -/
theorem pureChunks_of_append (a b : List (List Char)) (h : pureChunks (a ++ b)) :
    pureChunks a ∧ pureChunks b := by
  obtain ⟨h1, h2⟩ := h
  rw [List.chain'_append] at h2
  exact ⟨⟨fun r hr => h1 r (List.mem_append_left b hr), h2.1⟩,
    ⟨fun r hr => h1 r (List.mem_append_right a hr), h2.2.1⟩⟩

/-- Purity restricts to the tail. -/
theorem pureChunks_tail (c : List Char) (rest : List (List Char))
    (h : pureChunks (c :: rest)) : pureChunks rest :=
  ⟨fun r hr => h.1 r (List.mem_cons_of_mem c hr), h.2.tail⟩

/-- The word chunks of a flattened pure chunk list, from the strict
alternation invariant. -/
theorem wordsCore_flatten_of_pure (L : List (List Char)) (h : pureChunks L) :
    wordsCore L.flatten = wordsOfChunks L := by
  refine wordsCore_flatten_pure L h.1 ?_
  refine List.Chain'.imp ?_ h.2
  intro a d had
  cases ha : isAllWs a
  · cases hd : isAllWs d
    · rw [ha, hd] at had
      exact absurd rfl had
    · exact Or.inr rfl
  · exact Or.inl rfl

/-- Word chunks are additive over appends. -/
theorem wordsOfChunks_append (a b : List (List Char)) :
    wordsOfChunks (a ++ b) = wordsOfChunks a ++ wordsOfChunks b := by
  unfold wordsOfChunks
  rw [List.filter_append]

/-- A whitespace chunk contributes no word chunk. -/
theorem wordsOfChunks_cons_ws (c : List Char) (rest : List (List Char))
    (h : isAllWs c = true) : wordsOfChunks (c :: rest) = wordsOfChunks rest := by
  unfold wordsOfChunks
  rw [List.filter_cons]
  simp [h]

/-- Dropping a trailing whitespace chunk after the line was built. -/
theorem dropLastWs_concat_ws (G : List (List Char)) (t : List Char)
    (h : isAllWs t = true) : dropLastWs (G ++ [t]) = G := by
  unfold dropLastWs
  rw [List.getLast?_concat]
  show (if isAllWs t = true then (G ++ [t]).dropLast else G ++ [t]) = G
  rw [if_pos h, List.dropLast_concat]

/-- A line emptied by the trailing-whitespace drop had no word chunk. -/
theorem wordsOfChunks_eq_nil_of_dropLast (L : List (List Char))
    (h : dropLastWs L = []) : wordsOfChunks L = [] := by
  rcases dropLastWs_eq_nil L h with rfl | ⟨x, rfl, hx⟩
  · rfl
  · exact wordsOfChunks_cons_ws x [] hx

/-- The trailing-whitespace drop of the empty line. -/
theorem dropLastWs_nil : dropLastWs [] = [] := rfl

/-- Purity survives the trailing-whitespace drop. -/
theorem pureChunks_dropLastWs (L : List (List Char)) (h : pureChunks L) :
    pureChunks (dropLastWs L) :=
  ⟨fun r hr => h.1 r (dropLastWs_subset L r hr), dropLastWs_chain _ L h.2⟩

/-- Full characterization of the long-word stage followed by line
emission, over an arbitrary greedy-fill result `(G1, cl, gr)`: the
remainder stays pure, the measure strictly drops, an emitted line fits
the width, an empty emission preserves the word chunks, and under the
word-fit hypothesis the word chunks decompose into the emitted line's
words followed by the remainder's while the fit is preserved. -/
theorem wrapPickEmit_main (width : Nat) (hw0 : 0 < width)
    (G1 gr : List (List Char)) (cl : Nat)
    (hcl : cl = totalLen G1)
    (hle : G1 ≠ [] → cl ≤ width)
    (hhead : ∀ d rest2, gr = d :: rest2 → G1 = [] → width < d.length)
    (hp : pureChunks (G1 ++ gr)) :
    pureChunks (wrapEmit (wrapPick width (G1, cl, gr))).2 ∧
    chunksMeasure (wrapEmit (wrapPick width (G1, cl, gr))).2 ≤ chunksMeasure (G1 ++ gr) ∧
    (G1 ++ gr ≠ [] →
      chunksMeasure (wrapEmit (wrapPick width (G1, cl, gr))).2 < chunksMeasure (G1 ++ gr)) ∧
    (∀ l, (wrapEmit (wrapPick width (G1, cl, gr))).1 = some l → l.length ≤ width) ∧
    ((wrapEmit (wrapPick width (G1, cl, gr))).1 = none →
      wordsOfChunks (wrapEmit (wrapPick width (G1, cl, gr))).2 = wordsOfChunks (G1 ++ gr)) ∧
    (wordsFit width (G1 ++ gr) →
      wordsOfChunks (G1 ++ gr) =
        (match (wrapEmit (wrapPick width (G1, cl, gr))).1 with
          | some l => wordsCore l
          | none => []) ++ wordsOfChunks (wrapEmit (wrapPick width (G1, cl, gr))).2 ∧
      wordsFit width (wrapEmit (wrapPick width (G1, cl, gr))).2) := by
  cases gr with
  | nil =>
    have hcore1 : (wrapEmit (wrapPick width (G1, cl, ([] : List (List Char))))).1 =
        if (dropLastWs G1).isEmpty then none else some (dropLastWs G1).flatten := rfl
    have hcore2 : (wrapEmit (wrapPick width (G1, cl, ([] : List (List Char))))).2 =
        ([] : List (List Char)) := rfl
    rw [List.append_nil] at hp ⊢
    refine ⟨?_, ?_, ?_, ?_, ?_, ?_⟩
    · rw [hcore2]
      exact pureChunks_nil
    · rw [hcore2, chunksMeasure_nil]
      exact Nat.zero_le _
    · intro hne
      rw [hcore2, chunksMeasure_nil]
      exact chunksMeasure_pos G1 hne
    · intro l hl
      rw [hcore1] at hl
      by_cases hemp : (dropLastWs G1).isEmpty = true
      · rw [if_pos hemp] at hl
        exact Option.noConfusion hl
      · rw [if_neg hemp] at hl
        injection hl with hl2
        rw [← hl2, totalLen_flatten]
        have h1 : totalLen (dropLastWs G1) ≤ totalLen G1 := dropLastWs_totalLen G1
        have hg1ne : G1 ≠ [] := by
          intro h
          rw [h] at hemp
          exact hemp rfl
        have h2 := hle hg1ne
        omega
    · intro h1
      rw [hcore1] at h1
      rw [hcore2]
      by_cases hemp : (dropLastWs G1).isEmpty = true
      · rw [wordsOfChunks_eq_nil_of_dropLast G1 (List.isEmpty_iff.mp hemp)]
        rfl
      · rw [if_neg hemp] at h1
        exact Option.noConfusion h1
    · intro hf
      refine ⟨?_, ?_⟩
      · rw [hcore2, hcore1]
        by_cases hemp : (dropLastWs G1).isEmpty = true
        · rw [if_pos hemp]
          show wordsOfChunks G1 = [] ++ wordsOfChunks []
          rw [wordsOfChunks_eq_nil_of_dropLast G1 (List.isEmpty_iff.mp hemp)]
          rfl
        · rw [if_neg hemp]
          show wordsOfChunks G1 = wordsCore (dropLastWs G1).flatten ++ wordsOfChunks []
          rw [wordsCore_flatten_of_pure _ (pureChunks_dropLastWs G1 hp), dropLastWs_words]
          exact (List.append_nil _).symm
      · rw [hcore2]
        intro r hr
        exact absurd hr (List.not_mem_nil r)
  | cons d rest2 =>
    have hpick : wrapPick width (G1, cl, d :: rest2) =
        if width < d.length then
          (G1 ++ [(handleLongWord width cl d).1], (handleLongWord width cl d).2 :: rest2)
        else (G1, d :: rest2) := rfl
    obtain ⟨hpG, hpD⟩ := pureChunks_of_append G1 (d :: rest2) hp
    by_cases hlong : width < d.length
    · obtain ⟨hh1, hh2, hh3, hh4, e, hhe⟩ := handleLongWord_spec width cl d hlong
      have hT : (handleLongWord width cl d).1 = d.take e := by rw [hhe]
      have hR : (handleLongWord width cl d).2 = d.drop e := by rw [hhe]
      have hpick2 : wrapPick width (G1, cl, d :: rest2) =
          (G1 ++ [d.take e], d.drop e :: rest2) := by
        rw [hpick, if_pos hlong, hT, hR]
      rw [hT] at hh2 hh4
      rw [hR] at hh3
      have hcore1 : (wrapEmit (wrapPick width (G1, cl, d :: rest2))).1 =
          if (dropLastWs (G1 ++ [d.take e])).isEmpty then none
          else some (dropLastWs (G1 ++ [d.take e])).flatten := by
        rw [hpick2]
        rfl
      have hcore2 : (wrapEmit (wrapPick width (G1, cl, d :: rest2))).2 =
          d.drop e :: rest2 := by
        rw [hpick2]
        rfl
      obtain ⟨hdne, hdcl⟩ := hpD.1 d (List.mem_cons_self d rest2)
      have hlenTR : (d.take e).length + (d.drop e).length = d.length := by
        have h := congrArg List.length (List.take_append_drop e d)
        rw [List.length_append] at h
        exact h
      have hRcl : ∀ x ∈ d.drop e, pyWsChar x = isAllWs d :=
        fun x hx => hdcl x (List.mem_of_mem_drop hx)
      have hTcl : ∀ x ∈ d.take e, pyWsChar x = isAllWs d :=
        fun x hx => hdcl x (List.mem_of_mem_take hx)
      have hRws : isAllWs (d.drop e) = isAllWs d := isAllWs_of_class _ _ hh3 hRcl
      refine ⟨?_, ?_, ?_, ?_, ?_, ?_⟩
      · rw [hcore2]
        refine ⟨?_, ?_⟩
        · intro r hr
          rcases List.mem_cons.mp hr with rfl | hr2
          · exact ⟨hh3, fun x hx => by rw [hRws]; exact hRcl x hx⟩
          · exact hpD.1 r (List.mem_cons_of_mem d hr2)
        · have hch := hpD.2
          exact List.chain'_cons'.mpr
            ⟨fun y hy => by rw [hRws]; exact (List.chain'_cons'.mp hch).1 y hy,
             (List.chain'_cons'.mp hch).2⟩
      · rw [hcore2, chunksMeasure_append, chunksMeasure_cons, chunksMeasure_cons]
        omega
      · intro _
        rw [hcore2, chunksMeasure_append, chunksMeasure_cons, chunksMeasure_cons]
        by_cases hg1nil : G1 = []
        · have h1e : 1 ≤ (d.take e).length := by
            refine hh4 hw0 ?_
            rw [hcl, hg1nil]
            rfl
          rw [hg1nil, chunksMeasure_nil]
          omega
        · have hpos := chunksMeasure_pos G1 hg1nil
          omega
      · intro l hl
        rw [hcore1] at hl
        by_cases hemp : (dropLastWs (G1 ++ [d.take e])).isEmpty = true
        · rw [if_pos hemp] at hl
          exact Option.noConfusion hl
        · rw [if_neg hemp] at hl
          injection hl with hl2
          rw [← hl2, totalLen_flatten]
          have h1 : totalLen (dropLastWs (G1 ++ [d.take e])) ≤ totalLen (G1 ++ [d.take e]) :=
            dropLastWs_totalLen _
          rw [totalLen_append, totalLen_cons] at h1
          have hclw : cl ≤ width := by
            by_cases hg1nil : G1 = []
            · rw [hcl, hg1nil]
              exact Nat.zero_le width
            · exact hle hg1nil
          have h2 : totalLen ([] : List (List Char)) = 0 := rfl
          omega
      · intro h1
        rw [hcore1] at h1
        rw [hcore2]
        by_cases hemp : (dropLastWs (G1 ++ [d.take e])).isEmpty = true
        · rcases dropLastWs_eq_nil _ (List.isEmpty_iff.mp hemp) with h0 | ⟨x, hx1, hx2⟩
          · exact absurd h0 (by simp)
          · have hg1nil : G1 = [] := by
              cases hG : G1 with
              | nil => rfl
              | cons a as =>
                exfalso
                rw [hG] at hx1
                have hlen := congrArg List.length hx1
                rw [List.length_append] at hlen
                simp at hlen
            rw [hg1nil] at hx1
            have hTx : d.take e = x := by
              rw [List.nil_append] at hx1
              injection hx1
            have h1e : 1 ≤ (d.take e).length := by
              refine hh4 hw0 ?_
              rw [hcl, hg1nil]
              rfl
            have hTne : d.take e ≠ [] := by
              intro h
              rw [h] at h1e
              simp at h1e
            obtain ⟨x0, hx0⟩ := List.exists_mem_of_ne_nil _ hTne
            have hx0ws : pyWsChar x0 = true := by
              rw [hTx] at hx0
              exact List.all_eq_true.mp hx2 x0 hx0
            have hdws : isAllWs d = true := by
              rw [← hTcl x0 hx0]
              exact hx0ws
            rw [hg1nil, List.nil_append, wordsOfChunks_cons_ws d rest2 hdws,
              wordsOfChunks_cons_ws (d.drop e) rest2 (by rw [hRws]; exact hdws)]
        · rw [if_neg hemp] at h1
          exact Option.noConfusion h1
      · intro hf
        have hdws : isAllWs d = true := by
          cases hdw : isAllWs d
          · have := hf d (List.mem_append_right G1 (List.mem_cons_self d rest2)) hdw
            omega
          · rfl
        have hTallws : isAllWs (d.take e) = true :=
          List.all_eq_true.mpr (fun x hx => by rw [hTcl x hx]; exact hdws)
        have hline : dropLastWs (G1 ++ [d.take e]) = G1 :=
          dropLastWs_concat_ws G1 _ hTallws
        have hRwsT : isAllWs (d.drop e) = true := by
          rw [hRws]
          exact hdws
        refine ⟨?_, ?_⟩
        · rw [hcore2, hcore1, hline]
          rw [wordsOfChunks_append, wordsOfChunks_cons_ws d rest2 hdws,
            wordsOfChunks_cons_ws (d.drop e) rest2 hRwsT]
          by_cases hemp : G1.isEmpty = true
          · rw [if_pos hemp]
            show wordsOfChunks G1 ++ wordsOfChunks rest2 = [] ++ wordsOfChunks rest2
            rw [List.isEmpty_iff.mp hemp]
            rfl
          · rw [if_neg hemp]
            show wordsOfChunks G1 ++ wordsOfChunks rest2 =
              wordsCore G1.flatten ++ wordsOfChunks rest2
            rw [wordsCore_flatten_of_pure G1 hpG]
        · rw [hcore2]
          intro r hr hw2
          rcases List.mem_cons.mp hr with rfl | hr2
          · rw [hRwsT] at hw2
            exact Bool.noConfusion hw2
          · exact hf r (List.mem_append_right G1 (List.mem_cons_of_mem d hr2)) hw2
    · have hpick2 : wrapPick width (G1, cl, d :: rest2) = (G1, d :: rest2) := by
        rw [hpick, if_neg hlong]
      have hcore1 : (wrapEmit (wrapPick width (G1, cl, d :: rest2))).1 =
          if (dropLastWs G1).isEmpty then none else some (dropLastWs G1).flatten := by
        rw [hpick2]
        rfl
      have hcore2 : (wrapEmit (wrapPick width (G1, cl, d :: rest2))).2 = d :: rest2 := by
        rw [hpick2]
        rfl
      have hg1ne : G1 ≠ [] := fun h => hlong (hhead d rest2 rfl h)
      have hclw : cl ≤ width := hle hg1ne
      refine ⟨?_, ?_, ?_, ?_, ?_, ?_⟩
      · rw [hcore2]
        exact hpD
      · rw [hcore2, chunksMeasure_append]
        omega
      · intro _
        rw [hcore2, chunksMeasure_append]
        have hpos := chunksMeasure_pos G1 hg1ne
        omega
      · intro l hl
        rw [hcore1] at hl
        by_cases hemp : (dropLastWs G1).isEmpty = true
        · rw [if_pos hemp] at hl
          exact Option.noConfusion hl
        · rw [if_neg hemp] at hl
          injection hl with hl2
          rw [← hl2, totalLen_flatten]
          have h1 : totalLen (dropLastWs G1) ≤ totalLen G1 := dropLastWs_totalLen G1
          omega
      · intro h1
        rw [hcore1] at h1
        rw [hcore2]
        by_cases hemp : (dropLastWs G1).isEmpty = true
        · rw [wordsOfChunks_append,
            wordsOfChunks_eq_nil_of_dropLast G1 (List.isEmpty_iff.mp hemp), List.nil_append]
        · rw [if_neg hemp] at h1
          exact Option.noConfusion h1
      · intro hf
        refine ⟨?_, ?_⟩
        · rw [hcore2, hcore1, wordsOfChunks_append]
          by_cases hemp : (dropLastWs G1).isEmpty = true
          · rw [if_pos hemp]
            show wordsOfChunks G1 ++ wordsOfChunks (d :: rest2) =
              [] ++ wordsOfChunks (d :: rest2)
            rw [wordsOfChunks_eq_nil_of_dropLast G1 (List.isEmpty_iff.mp hemp)]
          · rw [if_neg hemp]
            show wordsOfChunks G1 ++ wordsOfChunks (d :: rest2) =
              wordsCore (dropLastWs G1).flatten ++ wordsOfChunks (d :: rest2)
            rw [wordsCore_flatten_of_pure _ (pureChunks_dropLastWs G1 hpG), dropLastWs_words]
        · rw [hcore2]
          intro r hr
          exact hf r (List.mem_append_right G1 hr)

/-- `wrapCore` inherits the full iteration characterization from the
greedy fill's properties. -/
theorem wrapCore_main (width : Nat) (hw0 : 0 < width) (chunks1 : List (List Char))
    (hp : pureChunks chunks1) :
    pureChunks (wrapCore width chunks1).2 ∧
    chunksMeasure (wrapCore width chunks1).2 ≤ chunksMeasure chunks1 ∧
    (chunks1 ≠ [] → chunksMeasure (wrapCore width chunks1).2 < chunksMeasure chunks1) ∧
    (∀ l, (wrapCore width chunks1).1 = some l → l.length ≤ width) ∧
    ((wrapCore width chunks1).1 = none →
      wordsOfChunks (wrapCore width chunks1).2 = wordsOfChunks chunks1) ∧
    (wordsFit width chunks1 →
      wordsOfChunks chunks1 =
        (match (wrapCore width chunks1).1 with
          | some l => wordsCore l
          | none => []) ++ wordsOfChunks (wrapCore width chunks1).2 ∧
      wordsFit width (wrapCore width chunks1).2) := by
  have hga := greedyPop_append width chunks1 0
  have hgs := greedyPop_spec width chunks1 0
  have hcl : (greedyPop width 0 chunks1).2.1 = totalLen (greedyPop width 0 chunks1).1 := by
    rw [hgs.1, Nat.zero_add]
  have hhead : ∀ d rest2, (greedyPop width 0 chunks1).2.2 = d :: rest2 →
      (greedyPop width 0 chunks1).1 = [] → width < d.length := by
    intro d rest2 h2 h1
    have hch : chunks1 = d :: rest2 := by
      rw [← hga, h1, h2]
      rfl
    have h1b : (greedyPop width 0 (d :: rest2)).1 = [] := by
      rw [← hch]
      exact h1
    have hlt := greedyPop_nil_head width 0 d rest2 h1b
    omega
  have hmain := wrapPickEmit_main width hw0 (greedyPop width 0 chunks1).1
    (greedyPop width 0 chunks1).2.2 (greedyPop width 0 chunks1).2.1 hcl hgs.2 hhead
    (by rw [hga]; exact hp)
  rw [hga] at hmain
  exact hmain

/-- `wrapStep` on a nonempty chunk list is `wrapCore` after the leading
whitespace drop. -/
theorem wrapStep_eq (width : Nat) (firstLine : Bool) (c : List Char)
    (rest : List (List Char)) :
    wrapStep width firstLine (c :: rest) =
      wrapCore width (if !firstLine && isAllWs c then rest else c :: rest) := rfl

/-- Full characterization of one `wrapStep` iteration on a nonempty
pure chunk list. -/
theorem wrapStep_main (width : Nat) (hw0 : 0 < width) (firstLine : Bool)
    (c : List Char) (rest : List (List Char)) (hp : pureChunks (c :: rest)) :
    pureChunks (wrapStep width firstLine (c :: rest)).2 ∧
    chunksMeasure (wrapStep width firstLine (c :: rest)).2 < chunksMeasure (c :: rest) ∧
    (∀ l, (wrapStep width firstLine (c :: rest)).1 = some l → l.length ≤ width) ∧
    ((wrapStep width firstLine (c :: rest)).1 = none →
      wordsOfChunks (wrapStep width firstLine (c :: rest)).2 = wordsOfChunks (c :: rest)) ∧
    (wordsFit width (c :: rest) →
      wordsOfChunks (c :: rest) =
        (match (wrapStep width firstLine (c :: rest)).1 with
          | some l => wordsCore l
          | none => []) ++ wordsOfChunks (wrapStep width firstLine (c :: rest)).2 ∧
      wordsFit width (wrapStep width firstLine (c :: rest)).2) := by
  rw [wrapStep_eq]
  by_cases hdrop : (!firstLine && isAllWs c) = true
  · rw [if_pos hdrop]
    have hcws : isAllWs c = true := (Bool.and_eq_true_iff.mp hdrop).2
    obtain ⟨m1, m2, m3, m4, m5, m6⟩ := wrapCore_main width hw0 rest (pureChunks_tail c rest hp)
    have hwc : wordsOfChunks (c :: rest) = wordsOfChunks rest :=
      wordsOfChunks_cons_ws c rest hcws
    refine ⟨m1, ?_, m4, ?_, ?_⟩
    · have hm : chunksMeasure (c :: rest) = 1 + c.length + chunksMeasure rest :=
        chunksMeasure_cons c rest
      omega
    · intro h1
      rw [hwc]
      exact m5 h1
    · intro hf
      have hf2 : wordsFit width rest := fun r hr => hf r (List.mem_cons_of_mem c hr)
      obtain ⟨e1, e2⟩ := m6 hf2
      refine ⟨?_, e2⟩
      rw [hwc]
      exact e1
  · rw [if_neg hdrop]
    obtain ⟨m1, m2, m3, m4, m5, m6⟩ := wrapCore_main width hw0 (c :: rest) hp
    exact ⟨m1, m3 (by simp), m4, m5, m6⟩

/-- Unfolding equation of the wrap loop at zero fuel. -/
theorem wrapLoopF_zero (wpred : Nat) (lines chunks : List (List Char)) :
    wrapLoopF wpred 0 lines chunks = lines.reverse := rfl

/-- Unfolding equation of the wrap loop on exhausted chunks. -/
theorem wrapLoopF_nilc (wpred fuel : Nat) (lines : List (List Char)) :
    wrapLoopF wpred (fuel + 1) lines [] = lines.reverse := rfl

/-- Unfolding equation of the wrap loop on a nonempty chunk list. -/
theorem wrapLoopF_cons (wpred fuel : Nat) (lines : List (List Char)) (c : List Char)
    (rest : List (List Char)) :
    wrapLoopF wpred (fuel + 1) lines (c :: rest) =
      match (wrapStep (wpred + 1) lines.isEmpty (c :: rest)).1 with
      | some l =>
        wrapLoopF wpred fuel (l :: lines) (wrapStep (wpred + 1) lines.isEmpty (c :: rest)).2
      | none =>
        wrapLoopF wpred fuel lines (wrapStep (wpred + 1) lines.isEmpty (c :: rest)).2 := rfl

/-- The wrap loop never discards an accumulated line. -/
theorem wrapLoopF_length_ge (wpred : Nat) :
    ∀ (fuel : Nat) (lines chunks : List (List Char)),
      lines.length ≤ (wrapLoopF wpred fuel lines chunks).length := by
  intro fuel
  induction fuel with
  | zero =>
    intro lines chunks
    rw [wrapLoopF_zero, List.length_reverse]
  | succ f ih =>
    intro lines chunks
    cases chunks with
    | nil =>
      rw [wrapLoopF_nilc, List.length_reverse]
    | cons c rest =>
      rw [wrapLoopF_cons]
      cases hs : (wrapStep (wpred + 1) lines.isEmpty (c :: rest)).1 with
      | some l =>
        have h := ih (l :: lines) (wrapStep (wpred + 1) lines.isEmpty (c :: rest)).2
        rw [List.length_cons] at h
        show lines.length ≤ (wrapLoopF wpred f (l :: lines)
          (wrapStep (wpred + 1) lines.isEmpty (c :: rest)).2).length
        omega
      | none => exact ih lines _

/-- Every line produced by the wrap loop on pure chunks fits the
width. -/
theorem wrapLoopF_le (wpred : Nat) :
    ∀ (fuel : Nat) (lines chunks : List (List Char)), pureChunks chunks →
      (∀ l ∈ lines, l.length ≤ wpred + 1) →
      ∀ l ∈ wrapLoopF wpred fuel lines chunks, l.length ≤ wpred + 1 := by
  intro fuel
  induction fuel with
  | zero =>
    intro lines chunks _ hl l hm
    rw [wrapLoopF_zero] at hm
    exact hl l (List.mem_reverse.mp hm)
  | succ f ih =>
    intro lines chunks hp hl l hm
    cases chunks with
    | nil =>
      rw [wrapLoopF_nilc] at hm
      exact hl l (List.mem_reverse.mp hm)
    | cons c rest =>
      rw [wrapLoopF_cons] at hm
      obtain ⟨m1, _, m4, _, _⟩ := wrapStep_main (wpred + 1) (by omega) lines.isEmpty c rest hp
      cases hs : (wrapStep (wpred + 1) lines.isEmpty (c :: rest)).1 with
      | some l2 =>
        rw [hs] at hm
        refine ih (l2 :: lines) _ m1 ?_ l hm
        intro x hx
        rcases List.mem_cons.mp hx with rfl | hx2
        · exact m4 x hs
        · exact hl x hx2
      | none =>
        rw [hs] at hm
        exact ih lines _ m1 hl l hm

/-- The words of the wrap loop's output are the accumulated lines' words
followed by the word chunks of the remaining input. -/
theorem wrapLoopF_words (wpred : Nat) :
    ∀ (fuel : Nat) (lines chunks : List (List Char)), pureChunks chunks →
      wordsFit (wpred + 1) chunks → chunksMeasure chunks < fuel →
      ((wrapLoopF wpred fuel lines chunks).map wordsCore).flatten =
        ((lines.reverse).map wordsCore).flatten ++ wordsOfChunks chunks := by
  intro fuel
  induction fuel with
  | zero =>
    intro lines chunks _ _ hm
    omega
  | succ f ih =>
    intro lines chunks hp hf hm
    cases chunks with
    | nil =>
      rw [wrapLoopF_nilc]
      exact (List.append_nil _).symm
    | cons c rest =>
      rw [wrapLoopF_cons]
      obtain ⟨m1, m2, _, _, m6⟩ := wrapStep_main (wpred + 1) (by omega) lines.isEmpty c rest hp
      obtain ⟨e1, e2⟩ := m6 hf
      have hm2 : chunksMeasure (wrapStep (wpred + 1) lines.isEmpty (c :: rest)).2 < f := by
        omega
      cases hs : (wrapStep (wpred + 1) lines.isEmpty (c :: rest)).1 with
      | some l =>
        show ((wrapLoopF wpred f (l :: lines)
            (wrapStep (wpred + 1) lines.isEmpty (c :: rest)).2).map wordsCore).flatten =
          ((lines.reverse).map wordsCore).flatten ++ wordsOfChunks (c :: rest)
        rw [ih (l :: lines) _ m1 e2 hm2, e1, hs]
        simp [List.reverse_cons, List.map_append, List.flatten_append, List.append_assoc]
      | none =>
        show ((wrapLoopF wpred f lines
            (wrapStep (wpred + 1) lines.isEmpty (c :: rest)).2).map wordsCore).flatten =
          ((lines.reverse).map wordsCore).flatten ++ wordsOfChunks (c :: rest)
        rw [ih lines _ m1 e2 hm2, e1, hs]
        simp [List.append_assoc]

/-- On pure chunks still holding a word, the wrap loop emits at least
one line. -/
theorem wrapLoopF_emits (wpred : Nat) :
    ∀ (fuel : Nat) (lines chunks : List (List Char)), pureChunks chunks →
      chunksMeasure chunks < fuel → wordsOfChunks chunks ≠ [] →
      wrapLoopF wpred fuel lines chunks ≠ [] := by
  intro fuel
  induction fuel with
  | zero =>
    intro lines chunks _ hm _
    omega
  | succ f ih =>
    intro lines chunks hp hm hw
    cases chunks with
    | nil => exact absurd rfl hw
    | cons c rest =>
      rw [wrapLoopF_cons]
      obtain ⟨m1, m2, _, m5, _⟩ := wrapStep_main (wpred + 1) (by omega) lines.isEmpty c rest hp
      cases hs : (wrapStep (wpred + 1) lines.isEmpty (c :: rest)).1 with
      | some l =>
        intro hbad
        have hbad2 : wrapLoopF wpred f (l :: lines)
            (wrapStep (wpred + 1) lines.isEmpty (c :: rest)).2 = [] := hbad
        have hlen := wrapLoopF_length_ge wpred f (l :: lines)
          (wrapStep (wpred + 1) lines.isEmpty (c :: rest)).2
        rw [hbad2] at hlen
        simp at hlen
      | none =>
        refine ih lines _ m1 (by omega) ?_
        rw [m5 hs]
        exact hw

/-- On a single whitespace chunk and an empty line list, a wrap
iteration emits nothing and leaves at most one whitespace chunk. -/
theorem wrapStep_ws_single (width : Nat) (hw0 : 0 < width) (x : List Char)
    (hx : isAllWs x = true) :
    (wrapStep width true [x]).1 = none ∧
    ((wrapStep width true [x]).2 = [] ∨
      ∃ y, (wrapStep width true [x]).2 = [y] ∧ isAllWs y = true) := by
  have heq : wrapStep width true [x] = wrapCore width [x] := rfl
  rw [heq]
  by_cases hfit : 0 + x.length ≤ width
  · have hg : greedyPop width 0 [x] = ([x], 0 + x.length, []) := by
      unfold greedyPop
      rw [if_pos hfit]
      rfl
    have hdl : dropLastWs [x] = [] := by
      unfold dropLastWs
      rw [List.getLast?_singleton]
      show (if isAllWs x = true then [x].dropLast else [x]) = []
      rw [if_pos hx]
      rfl
    have hcore : wrapCore width [x] = (none, []) := by
      unfold wrapCore
      rw [hg]
      show (if (dropLastWs [x]).isEmpty then none else some (dropLastWs [x]).flatten,
        ([] : List (List Char))) = (none, [])
      rw [hdl]
      rfl
    rw [hcore]
    exact ⟨rfl, Or.inl rfl⟩
  · have hlt : width < x.length := by omega
    have hg : greedyPop width 0 [x] = ([], 0, [x]) := by
      unfold greedyPop
      rw [if_neg hfit]
    obtain ⟨hh1, hh2, hh3, hh4, e, hhe⟩ := handleLongWord_spec width 0 x hlt
    have hT : (handleLongWord width 0 x).1 = x.take e := by rw [hhe]
    have hR : (handleLongWord width 0 x).2 = x.drop e := by rw [hhe]
    have hTws : isAllWs (x.take e) = true :=
      List.all_eq_true.mpr
        (fun y hy => List.all_eq_true.mp hx y (List.mem_of_mem_take hy))
    have hRws : isAllWs (x.drop e) = true :=
      List.all_eq_true.mpr
        (fun y hy => List.all_eq_true.mp hx y (List.mem_of_mem_drop hy))
    have hdl : dropLastWs [x.take e] = [] := by
      unfold dropLastWs
      rw [List.getLast?_singleton]
      show (if isAllWs (x.take e) = true then [x.take e].dropLast else [x.take e]) = []
      rw [if_pos hTws]
      rfl
    have hcore : wrapCore width [x] = (none, [x.drop e]) := by
      unfold wrapCore
      rw [hg]
      show wrapEmit (wrapPick width (([] : List (List Char)), 0, [x])) = (none, [x.drop e])
      have hpick : wrapPick width (([] : List (List Char)), 0, [x]) =
          ([(handleLongWord width 0 x).1], (handleLongWord width 0 x).2 :: []) := by
        unfold wrapPick
        show (if width < x.length then
            (([] : List (List Char)) ++ [(handleLongWord width 0 x).1],
              (handleLongWord width 0 x).2 :: [])
          else (([] : List (List Char)), [x])) = _
        rw [if_pos hlt]
        rfl
      rw [hpick, hT, hR]
      show (if (dropLastWs [x.take e]).isEmpty then none
        else some (dropLastWs [x.take e]).flatten, [x.drop e]) = (none, [x.drop e])
      rw [hdl]
      rfl
    rw [hcore]
    exact ⟨rfl, Or.inr ⟨x.drop e, rfl, hRws⟩⟩

/-- The wrap loop on a single whitespace chunk produces no line. -/
theorem wrapLoopF_ws (wpred : Nat) :
    ∀ (fuel : Nat) (x : List Char), isAllWs x = true →
      wrapLoopF wpred fuel [] [x] = [] := by
  intro fuel
  induction fuel with
  | zero => intro x _; rfl
  | succ f ih =>
    intro x hx
    rw [wrapLoopF_cons]
    obtain ⟨h1, h2⟩ := wrapStep_ws_single (wpred + 1) (by omega) x hx
    rw [show (List.isEmpty ([] : List (List Char))) = true from rfl, h1]
    show wrapLoopF wpred f [] (wrapStep (wpred + 1) true [x]).2 = []
    rcases h2 with h2 | ⟨y, hy, hyws⟩
    · rw [h2]
      cases f <;> rfl
    · rw [hy]
      exact ih y hyws

/-- The initial run split satisfies the purity invariant. -/
theorem splitRuns_pure (cs : List Char) : pureChunks (splitRuns cs) := by
  cases cs with
  | nil => exact pureChunks_nil
  | cons c rest =>
    obtain ⟨_, _, f3, f4, _⟩ := splitRunsGo_spec rest (pyWsChar c) [c] (by simp) (by simp)
    exact ⟨f3, f4⟩

/-- The word chunks of the initial run split are the word sequence of
the split text. -/
theorem wordsOfChunks_splitRuns (cs : List Char) :
    wordsOfChunks (splitRuns cs) = wordsCore cs := by
  have h1 := wordsCore_flatten_of_pure (splitRuns cs) (splitRuns_pure cs)
  rw [(splitRuns_spec cs).1] at h1
  exact h1.symm

/-- A chunk list with no word chunk has a whitespace head. -/
theorem ws_of_no_words (x : List Char) (t : List (List Char))
    (h : wordsOfChunks (x :: t) = []) : isAllWs x = true := by
  unfold wordsOfChunks at h
  rw [List.filter_cons] at h
  cases hws : isAllWs x
  · rw [hws] at h
    simp at h
  · rfl

/-- Joining rendered chunks with spaces is rendering the space-joined
characters. -/
theorem joinWithSpaces_mk (L : List (List Char)) :
    joinWithSpaces (L.map String.mk) = String.mk (joinSepCore L) := by
  induction L with
  | nil => rfl
  | cons l rest ih =>
    cases rest with
    | nil => rfl
    | cons m rest2 =>
      show String.mk l ++ " " ++ joinWithSpaces ((m :: rest2).map String.mk) =
        String.mk (l ++ Char.ofNat 32 :: joinSepCore (m :: rest2))
      rw [ih]
      have h : (String.mk l ++ " " ++ String.mk (joinSepCore (m :: rest2))) =
          String.mk ((l ++ [Char.ofNat 32]) ++ joinSepCore (m :: rest2)) := rfl
      rw [h, List.append_assoc]
      rfl

/-- C1: for every input text and every `max_len > 0`, `chunk_text`
(which is `textwrap.wrap(text, max_len)` with default options) produces
only chunks of length at most `max_len`; the chunk count is zero exactly
when the input holds no word, i.e. no non-whitespace character — not
merely when the input is empty; and for hyphen-free input whose
whitespace-normalized words all fit `max_len`, joining the chunks with
single spaces reconstructs the whitespace-normalized word sequence of
the input. -/
theorem chunker_bounds_words (text : String) (max_len : Nat) (hml : 0 < max_len) :
    (∀ c ∈ chunk_text text max_len, c.length ≤ max_len) ∧
    (chunk_text text max_len = [] ↔ pyWords text = []) ∧
    ((∀ ch ∈ text.data, ch ≠ Char.ofNat 45) →
      (∀ r ∈ pyWords text, r.length ≤ max_len) →
      pyWords (joinWithSpaces (chunk_text text max_len)) = pyWords text) := by
  cases max_len with
  | zero => omega
  | succ wpred =>
    have hchunks : chunk_text text (wpred + 1) =
        (wrapLoopF wpred (chunksMeasure (splitRuns (munge text.data)) + 1) []
          (splitRuns (munge text.data))).map String.mk := rfl
    have hpure := splitRuns_pure (munge text.data)
    have hwords0 : wordsOfChunks (splitRuns (munge text.data)) = wordsCore text.data := by
      rw [wordsOfChunks_splitRuns, wordsCore_munge]
    have hpw : pyWords text = (wordsCore text.data).map String.mk := rfl
    refine ⟨?_, ?_, ?_⟩
    · intro c hc
      rw [hchunks] at hc
      obtain ⟨l, hl, rfl⟩ := List.mem_map.mp hc
      show l.length ≤ wpred + 1
      exact wrapLoopF_le wpred _ [] _ hpure
        (fun x hx => absurd hx (List.not_mem_nil x)) l hl
    · rw [hchunks]
      constructor
      · intro h0
        have hres : wrapLoopF wpred (chunksMeasure (splitRuns (munge text.data)) + 1) []
            (splitRuns (munge text.data)) = [] := List.map_eq_nil.mp h0
        by_contra hne
        have hwne : wordsCore text.data ≠ [] := by
          intro hz
          apply hne
          rw [hpw, hz]
          rfl
        have hwone : wordsOfChunks (splitRuns (munge text.data)) ≠ [] := by
          rw [hwords0]
          exact hwne
        exact wrapLoopF_emits wpred _ [] _ hpure (by omega) hwone hres
      · intro hpwn
        rw [hpw] at hpwn
        have hwz : wordsCore text.data = [] := List.map_eq_nil.mp hpwn
        have hwoz : wordsOfChunks (splitRuns (munge text.data)) = [] := by
          rw [hwords0, hwz]
        cases hsp : splitRuns (munge text.data) with
        | nil => rfl
        | cons x t =>
          rw [hsp] at hwoz hpure
          cases t with
          | nil =>
            have hxws : isAllWs x = true := ws_of_no_words x [] hwoz
            rw [wrapLoopF_ws wpred _ x hxws]
            rfl
          | cons y t2 =>
            exfalso
            have hxws := ws_of_no_words x (y :: t2) hwoz
            have hyws : isAllWs y = true := by
              refine ws_of_no_words y t2 ?_
              unfold wordsOfChunks at hwoz ⊢
              rw [List.filter_cons] at hwoz
              rw [hxws] at hwoz
              simpa using hwoz
            have hchain := (List.chain'_cons.mp hpure.2).1
            rw [hxws, hyws] at hchain
            exact hchain rfl
    · intro hnohy hfit
      have hfitw : wordsFit (wpred + 1) (splitRuns (munge text.data)) := by
        intro r hr hrw
        have hmem : r ∈ wordsOfChunks (splitRuns (munge text.data)) := by
          unfold wordsOfChunks
          refine List.mem_filter.mpr ⟨hr, ?_⟩
          rw [hrw]
          rfl
        rw [hwords0] at hmem
        have hmem2 : String.mk r ∈ pyWords text := by
          rw [hpw]
          exact List.mem_map_of_mem String.mk hmem
        exact hfit (String.mk r) hmem2
      have hloop := wrapLoopF_words wpred (chunksMeasure (splitRuns (munge text.data)) + 1)
        [] (splitRuns (munge text.data)) hpure hfitw (by omega)
      rw [hchunks, joinWithSpaces_mk]
      show (wordsCore (joinSepCore (wrapLoopF wpred
          (chunksMeasure (splitRuns (munge text.data)) + 1) []
          (splitRuns (munge text.data))))).map String.mk = pyWords text
      rw [wordsCore_joinSep, hloop, hwords0, hpw]
      rfl

/-- Witness: at input "hello world" with max_len 5, the claim theorem's
hypothesis is discharged concretely. -/
theorem chunker_bounds_words_witness :
    0 < 5 ∧
    ((∀ c ∈ chunk_text "hello world" 5, c.length ≤ 5) ∧
     (chunk_text "hello world" 5 = [] ↔ pyWords "hello world" = []) ∧
     ((∀ ch ∈ ("hello world" : String).data, ch ≠ Char.ofNat 45) →
       (∀ r ∈ pyWords "hello world", r.length ≤ 5) →
       pyWords (joinWithSpaces (chunk_text "hello world" 5)) = pyWords "hello world")) :=
  ⟨by decide, chunker_bounds_words "hello world" 5 (by decide)⟩

/-- Counterexample to the claim as stated: the whitespace-only, nonempty
input " " yields zero chunks at max_len 1, so the chunk count can be
zero for nonempty input; and at max_len 2 the word "abcd" is broken, so
space-joining the chunks does not reconstruct the word sequence when a
word exceeds max_len. -/
theorem chunker_bounds_words_cex :
    (chunk_text " " 1 = [] ∧ (" " : String) ≠ "") ∧
    pyWords (joinWithSpaces (chunk_text "abcd" 2)) ≠ pyWords "abcd" := by
  refine ⟨⟨?_, ?_⟩, ?_⟩ <;> decide
